import Mathlib

/-!
# Verification of the carina control-plane controllers

Shallow embedding of the three reconciliation control loops of the
carina local-disk storage orchestrator
(`src/controllers/node_controller.go`, `src/controllers/pod_controller.go`,
`src/controllers/persistentvolume_controller.go`), together with proofs
of the behavioural claims about them.

String-keyed Go maps are embedded as association lists with
replace-or-append insertion (`ainsert`), which matches Go map assignment
`m[k] = v`; lookups (`alookup`) return `Option`, with the Go
zero-value-on-miss convention made explicit (`alookupD`).
-/

/-- Lookup in an association list (Go `v, ok := m[k]` with `ok = (result ≠ none)`). -/
def alookup {β : Type} : List (String × β) → String → Option β
  | [], _ => none
  | (k', v) :: t, k => if k' = k then some v else alookup t k

/-- Lookup with a default value (Go `m[k]` returning the zero value on a miss). -/
def alookupD {β : Type} (m : List (String × β)) (k : String) (d : β) : β :=
  (alookup m k).getD d

/-- Go map assignment `m[k] = v`: replace the binding if the key is present,
else append a fresh binding. -/
def ainsert {β : Type} : List (String × β) → String → β → List (String × β)
  | [], k, v => [(k, v)]
  | (k', v') :: t, k, v =>
    if k' = k then (k, v) :: t else (k', v') :: ainsert t k v

/-- The keys of an association list. -/
def akeys {β : Type} (m : List (String × β)) : List String := m.map Prod.fst

/-! ## Shared constants (from `utils`, values as declared in the repository) -/

/-- The CSI driver identifier of this plugin (`utils.CSIPluginName`). -/
def CSIPluginName : String := "carina.storage.io"

/-- The scheduler name used by this system (`utils.CarinaSchedule`). -/
def CarinaSchedule : String := "carina-scheduler"

/-- The rebuild finalizer token (`utils.LogicVolumeFinalizer`). -/
def LogicVolumeFinalizer : String := "carina.storage.io/logicvolume"

/-- Volume-attribute key for the device major number (`utils.VolumeDeviceMajor`). -/
def VolumeDeviceMajor : String := "carina.io/device.major"

/-- Volume-attribute key for the device minor number (`utils.VolumeDeviceMinor`). -/
def VolumeDeviceMinor : String := "carina.io/device.minor"

/-- Modelled from the spec: `utils.ContainsString` (not under `src/`) —
membership of a string in a slice. -/
def containsString (l : List String) (s : String) : Bool := l.contains s

/-- Modelled from the spec: `utils.SliceRemoveString` (not under `src/`) —
"strip its rebuild finalizer token": removes every occurrence of `s` from the slice. -/
def sliceRemoveString (l : List String) (s : String) : List String :=
  l.filter (fun x => x ≠ s)

/-- Whitespace as trimmed by Go `strings.TrimSpace` (the characters that
occur in this code's inputs). -/
def isSpaceChar (c : Char) : Bool :=
  c = ' ' || c = '\t' || c = '\n' || c = '\r'

/-- Go `strings.TrimSpace`: drop leading and trailing whitespace. -/
def trimSpace (s : String) : String :=
  ⟨((s.data.dropWhile isSpaceChar).reverse.dropWhile isSpaceChar).reverse⟩

/-- Go `strings.Split` on a single separator character: no collapsing of
adjacent separators, and the empty string yields `[""]`. -/
def splitOnChar (sep : Char) : List Char → List (List Char)
  | [] => [[]]
  | c :: t =>
    match splitOnChar sep t with
    | [] => [[]]
    | h :: r => if c = sep then [] :: h :: r else (c :: h) :: r

/-- Go `strings.Split(s, " ")`. -/
def splitSpace (s : String) : List String :=
  (splitOnChar ' ' s.data).map String.mk

/-- Go `strings.HasPrefix`. -/
def strStartsWith (s pre : String) : Bool :=
  pre.data.isPrefixOf s.data

/-! ## Volume-Rebuild Controller (`src/controllers/node_controller.go`)

The controller's data model: only the fields the controller reads. -/

/-- A LogicVolume as read by the Volume-Rebuild Controller: name, the target
node (`Spec.NodeName`), the owning claim's namespace (`Spec.NameSpace`) and
name (`Spec.Pvc`), status string (`Status.Status`), finalizer tokens and
owner references (only emptiness of the latter is inspected). -/
structure LogicVolume where
  name : String
  nodeName : String
  ns : String
  pvc : String
  status : String
  finalizers : List String
  ownerReferences : List String
  deriving Repr, DecidableEq

/-- A cluster node as read by `getNeedRebuildVolume`: name, whether a deletion
marker is set, and whether its phase is `NodeTerminated`. -/
structure KNode where
  name : String
  deletionMarker : Bool
  phaseTerminated : Bool
  deriving Repr, DecidableEq

/-- `client.ObjectKey`: namespace + name. -/
structure ObjectKey where
  ns : String
  name : String
  deriving Repr, DecidableEq

/-- The LogicVolume object the controller would submit in the finalizer-stripping
patch: `lv2 := lv.DeepCopy(); lv2.Finalizers = SliceRemoveString(lv2.Finalizers,
LogicVolumeFinalizer)`. -/
def stripFinalizer (lv : LogicVolume) : LogicVolume :=
  { lv with finalizers := sliceRemoveString lv.finalizers LogicVolumeFinalizer }

/-- Cluster mutations issued by `getNeedRebuildVolume`: deletion of a
LogicVolume, and a merge patch replacing a LogicVolume (recorded as the
pre-mutation object together with the patched object). -/
inductive LVAction where
  | deleteLV (lv : LogicVolume)
  | patchLV (old new : LogicVolume)
  deriving Repr, DecidableEq

/-- Environment of one `getNeedRebuildVolume` pass: the three list results
(`none` models a failed List call), the negative cache `cacheNoDeleteLv`,
and the success of each Delete/Patch call (keyed by LogicVolume name). -/
structure RebuildEnv where
  lvs : Option (List LogicVolume)
  nodes : Option (List KNode)
  pvNames : Option (List String)
  cache : List String
  deleteOk : String → Bool
  patchOk : String → Bool

/-- Accumulated state of the scan loop of `getNeedRebuildVolume`:
the `volumeObjectMap`, the trace of issued mutations, and whether the pass
aborted with an error (`return volumeObjectMap, err`). -/
structure RebuildScan where
  volumeObjectMap : List (String × ObjectKey)
  actions : List LVAction
  aborted : Bool
  deriving Repr, DecidableEq

/-- The node-health map of `getNeedRebuildVolume`: `"abnormal"` if the node
has a deletion marker or a terminated phase, else `"normal"`. -/
def nodeStatusMap (nodes : List KNode) : List (String × String) :=
  nodes.foldl
    (fun m n =>
      if n.deletionMarker || n.phaseTerminated then ainsert m n.name "abnormal"
      else ainsert m n.name "normal")
    []

/-- One iteration of the LogicVolume loop in `getNeedRebuildVolume`
(`node_controller.go` lines 145–190). -/
def scanStep (env : RebuildEnv) (pvNames : List String) (nodeStatus : List (String × String))
    (st : RebuildScan) (lv : LogicVolume) : RebuildScan :=
  if st.aborted then st
  else if !lv.ownerReferences.isEmpty then st
  else if lv.status != "" && !(pvNames.contains lv.name) then
    -- orphan branch: delete the LogicVolume then patch away its finalizer
    if containsString lv.finalizers LogicVolumeFinalizer then
      let st1 := { st with actions := st.actions ++ [LVAction.deleteLV lv] }
      if !(env.deleteOk lv.name) then { st1 with aborted := true }
      else
        let st2 := { st1 with
          actions := st1.actions ++ [LVAction.patchLV lv (stripFinalizer lv)] }
        if !(env.patchOk lv.name) then { st2 with aborted := true } else st2
    else st
  else if lv.status == "Success" &&
      (env.cache.contains lv.name || alookup nodeStatus lv.nodeName == some "normal") then
    st
  else
    let st1 := { st with
      volumeObjectMap := ainsert st.volumeObjectMap lv.name ⟨lv.ns, lv.pvc⟩ }
    if containsString lv.finalizers LogicVolumeFinalizer then
      let st2 := { st1 with
        actions := st1.actions ++ [LVAction.patchLV lv (stripFinalizer lv)] }
      if !(env.patchOk lv.name) then { st2 with aborted := true } else st2
    else st1

/-- `getNeedRebuildVolume` (`node_controller.go` lines 110–192): list
LogicVolumes, Nodes and PersistentVolumes (any failure aborts with no
mutation), then scan every LogicVolume. -/
def getNeedRebuildVolume (env : RebuildEnv) : RebuildScan :=
  match env.lvs with
  | none => ⟨[], [], true⟩
  | some lvs =>
    if lvs = [] then ⟨[], [], false⟩
    else
      match env.nodes with
      | none => ⟨[], [], true⟩
      | some nodes =>
        match env.pvNames with
        | none => ⟨[], [], true⟩
        | some pvNames =>
          lvs.foldl (scanStep env pvNames (nodeStatusMap nodes)) ⟨[], [], false⟩

/-- The spec fields of a PersistentVolumeClaim that `rebuildVolume` copies
(access modes, selector, resource requests, storage class, volume mode,
data source), carried abstractly. -/
structure PVCSpec where
  accessModes : String
  selector : String
  resources : String
  storageClassName : String
  volumeMode : String
  dataSource : String
  deriving Repr, DecidableEq

/-- A PersistentVolumeClaim: object metadata, spec, and a status payload. -/
structure PVC where
  ns : String
  name : String
  spec : PVCSpec
  status : String
  deriving Repr, DecidableEq

/-- The clean claim `rebuildVolume` constructs for recreation
(`node_controller.go` lines 205–219): namespace/name from the recorded key,
only the six spec fields copied, empty status. -/
def rebuildPvc (o : ObjectKey) (pvc : PVC) : PVC :=
  { ns := o.ns
    name := o.name
    spec :=
      { accessModes := pvc.spec.accessModes
        selector := pvc.spec.selector
        resources := pvc.spec.resources
        storageClassName := pvc.spec.storageClassName
        volumeMode := pvc.spec.volumeMode
        dataSource := pvc.spec.dataSource }
    status := "" }

/-- Modelled from the spec: `utils.UntilMaxRetry` (not under `src/`) —
"bounded retry: up to 12 attempts, 10 time-units apart", stopping at the
first success. `ok i` tells whether attempt `i` succeeds; returns whether
the call eventually succeeded together with the number of attempts made. -/
def untilMaxRetry (ok : Nat → Bool) : Nat → Nat → Bool × Nat
  | 0, made => (false, made)
  | n + 1, made => if ok made then (true, made + 1) else untilMaxRetry ok n (made + 1)

/-- Cluster operations issued by `rebuildVolume` per candidate: a failed
claim fetch, the best-effort delete of the rebuilt claim object, and the
bounded-retry create (with the number of attempts made). -/
inductive PVCAction where
  | getPVCFail (o : ObjectKey)
  | deletePVC (pvc : PVC)
  | createPVC (pvc : PVC) (attempts : Nat)
  deriving Repr, DecidableEq

/-- The object key a `PVCAction` is about. -/
def pvcActionKey : PVCAction → ObjectKey
  | .getPVCFail o => o
  | .deletePVC p => ⟨p.ns, p.name⟩
  | .createPVC p _ => ⟨p.ns, p.name⟩

/-- Environment of `rebuildVolume`: the result of fetching each original
claim (`none` models a Get error), and the success of each create attempt
(indexed by attempt number). The best-effort delete's outcome is only
logged, so it is not part of the environment. -/
structure RebuildVolEnv where
  getPVC : ObjectKey → Option PVC
  createOk : ObjectKey → Nat → Bool

/-- Output of `rebuildVolume`: the (possibly grown) negative cache
`cacheNoDeleteLv`, the trace of issued operations, and whether the pass
returned an error. -/
structure RebuildRun where
  cache : List String
  actions : List PVCAction
  failed : Bool
  deriving Repr, DecidableEq

/-- One iteration of the candidate loop of `rebuildVolume`
(`node_controller.go` lines 197–238). A failed claim fetch records the
LogicVolume name in the negative cache and continues; otherwise the clean
claim is deleted (best effort) and created with bounded retry, and
exhausting the 12 retries makes the whole pass return an error
(`return err`), so the remaining candidates are skipped. -/
def rebuildStep (env : RebuildVolEnv) (st : RebuildRun) (e : String × ObjectKey) :
    RebuildRun :=
  if st.failed then st
  else
    match env.getPVC e.2 with
    | none =>
      { st with
        cache := if st.cache.contains e.1 then st.cache else st.cache ++ [e.1]
        actions := st.actions ++ [PVCAction.getPVCFail e.2] }
    | some pvc =>
      if (untilMaxRetry (env.createOk e.2) 12 0).1 then
        { st with
          actions := st.actions ++ [PVCAction.deletePVC (rebuildPvc e.2 pvc),
            PVCAction.createPVC (rebuildPvc e.2 pvc) (untilMaxRetry (env.createOk e.2) 12 0).2] }
      else
        { st with
          actions := st.actions ++ [PVCAction.deletePVC (rebuildPvc e.2 pvc),
            PVCAction.createPVC (rebuildPvc e.2 pvc) (untilMaxRetry (env.createOk e.2) 12 0).2]
          failed := true }

/-- `rebuildVolume` (`node_controller.go` lines 194–240). -/
def rebuildVolume (env : RebuildVolEnv) (cache₀ : List String)
    (m : List (String × ObjectKey)) : RebuildRun :=
  m.foldl (rebuildStep env) ⟨cache₀, [], false⟩

/-- Environment of one full pass of `resourceReconcile`. -/
structure PassEnv where
  scan : RebuildEnv
  run : RebuildVolEnv

/-- `resourceReconcile` (`node_controller.go` lines 94–108): one full pass of
the Volume-Rebuild Controller — scan for candidates, and only if the scan
did not return an error, rebuild the recorded claims. -/
def resourceReconcile (env : PassEnv) : RebuildScan × RebuildRun :=
  if (getNeedRebuildVolume env.scan).aborted then
    (getNeedRebuildVolume env.scan, ⟨env.scan.cache, [], true⟩)
  else
    (getNeedRebuildVolume env.scan,
      rebuildVolume env.run env.scan.cache (getNeedRebuildVolume env.scan).volumeObjectMap)


/-! ## Throttle Controller (`src/controllers/pod_controller.go`) -/

/-- Pod-annotation key namespace (`KubernetesCustomized`). -/
def KubernetesCustomized : String := "kubernetes.customized"

/-- The four block-I/O limit kinds. -/
def BlkIOThrottleReadBPS : String := "blkio.throttle.read_bps_device"

def BlkIOThrottleReadIOPS : String := "blkio.throttle.read_iops_device"

def BlkIOThrottleWriteBPS : String := "blkio.throttle.write_bps_device"

def BlkIOThrottleWriteIOPS : String := "blkio.throttle.write_iops_device"

/-- Root of the blkio control-group hierarchy (`BlkIOCGroupPath`). -/
def BlkIOCGroupPath : String := "/sys/fs/cgroup/blkio/"

/-- The fixed iteration order of the four limit kinds used by both paths. -/
def cgroupKinds : List String :=
  [BlkIOThrottleReadBPS, BlkIOThrottleReadIOPS, BlkIOThrottleWriteBPS, BlkIOThrottleWriteIOPS]

/-- The CSI section of a PersistentVolume spec: driver identifier and
volume-attributes map. -/
structure CSIInfo where
  driver : String
  volumeAttributes : List (String × String)
  deriving Repr, DecidableEq

/-- A PersistentVolume as read by the Throttle Controller: name, optional CSI
section, optional claim reference. -/
structure KPV where
  name : String
  csi : Option CSIInfo
  claimRef : Option ObjectKey
  deriving Repr, DecidableEq

/-- A Pod as read by the Throttle Controller. Each entry of `volumes` is the
claim name when the volume is PVC-backed, `none` otherwise. -/
structure KPod where
  ns : String
  name : String
  nodeName : String
  schedulerName : String
  annots : List (String × String)
  deletionMarker : Bool
  phase : String
  volumes : List (Option String)
  deriving Repr, DecidableEq

/-- One record of `cgroupblkio`: limit kind, control-group file path,
host-read previous state (`oldBlkio`) and desired state (`newBlkio`). -/
structure Cgroupblkio where
  name : String
  cpath : String
  oldBlkio : List (String × String)
  newBlkio : List (String × String)
  deriving Repr, DecidableEq

/-- One host throttle write: `echo <deviceKey> <value> > <cpath of kind>`. -/
structure BlkioWrite where
  kind : String
  deviceKey : String
  value : String
  deriving Repr, DecidableEq

/-- The `pvIndex` field-index function (`pod_controller.go` lines 108–125):
a PV is indexed under `"<claim-namespace>-<claim-name>"` when it has a CSI
section with this plugin's driver and a claim reference. -/
def pvIndexKey (pv : KPV) : Option String :=
  match pv.csi with
  | none => none
  | some c =>
    if c.driver != CSIPluginName then none
    else
      match pv.claimRef with
      | none => none
      | some ref => some (ref.ns ++ "-" ++ ref.name)

/-- `List` with `MatchingFields{"pvIndex": ns-claimName}`. -/
def pvsByClaim (pvs : List KPV) (ns claimName : String) : List KPV :=
  pvs.filter (fun pv => pvIndexKey pv == some (ns ++ "-" ++ claimName))

/-- Resolution of a pod volume's device key (`pod_controller.go` lines
172–189 and 222–238): the indexed PV list must have exactly one element and
its driver must match; the key is `"<major>:<minor>"` from the volume
attributes (Go map misses read as `""`). `none` models every logged-and-
skipped outcome. -/
def resolveDeviceKey (pvs : List KPV) (ns claimName : String) : Option String :=
  match pvsByClaim pvs ns claimName with
  | [pv] =>
    match pv.csi with
    | some c =>
      if c.driver == CSIPluginName then
        some (alookupD c.volumeAttributes VolumeDeviceMajor "" ++ ":" ++
              alookupD c.volumeAttributes VolumeDeviceMinor "")
      else none
    | none => none
  | _ => none

/-- The pod's override annotation for a limit kind:
`pod.Annotations["kubernetes.customized/<kind>"]`. -/
def annotValue (p : KPod) (kind : String) : Option String :=
  alookup p.annots (KubernetesCustomized ++ "/" ++ kind)

/-- Single-pod update of one limit-kind record (`pod_controller.go` lines
191–199): the annotation value if present, else an unconditional `"0"`. -/
def updateKindSingle (p : KPod) (key : String) (c : Cgroupblkio) : Cgroupblkio :=
  match annotValue p c.name with
  | some v => { c with newBlkio := ainsert c.newBlkio key v }
  | none => { c with newBlkio := ainsert c.newBlkio key "0" }

/-- Full-resync update of one limit-kind record (`pod_controller.go` lines
240–250): the annotation value if present; else `"0"` only when the device
key already appears in the host-read previous state. -/
def updateKindResync (p : KPod) (key : String) (c : Cgroupblkio) : Cgroupblkio :=
  match annotValue p c.name with
  | some v => { c with newBlkio := ainsert c.newBlkio key v }
  | none =>
    if (alookup c.oldBlkio key).isSome then { c with newBlkio := ainsert c.newBlkio key "0" }
    else c

/-- `writeCgroupBlkioFile` (`pod_controller.go` lines 332–350): per limit
kind, drop desired entries equal to the previous value, then emit one host
write per remaining desired entry. -/
def writeCgroupBlkioFile (cb : List Cgroupblkio) : List BlkioWrite :=
  cb.flatMap (fun c =>
    (c.newBlkio.filter (fun e => !(alookup c.oldBlkio e.1 == some e.2))).map
      (fun e => ⟨c.name, e.1, e.2⟩))

/-- The fresh per-kind records built by `SinglePodCGroupConfig` (lines
158–166): empty previous and desired state. -/
def emptyCb : List Cgroupblkio :=
  cgroupKinds.map (fun v => ⟨v, BlkIOCGroupPath ++ v, [], []⟩)

/-- The volume loop shared by both paths, parameterised by the per-kind
update function: resolve each PVC-backed volume to a device key (failures
are logged and skipped) and fold the update over all four records. -/
def podVolumesPass (upd : KPod → String → Cgroupblkio → Cgroupblkio)
    (pvs : List KPV) (p : KPod) (cb : List Cgroupblkio) : List Cgroupblkio :=
  p.volumes.foldl
    (fun cb vol =>
      match vol with
      | none => cb
      | some claimName =>
        match resolveDeviceKey pvs p.ns claimName with
        | none => cb
        | some key => cb.map (upd p key))
    cb

/-- `SinglePodCGroupConfig` (`pod_controller.go` lines 154–204): fresh empty
records, one pass over the pod's volumes, then the write step. -/
def singlePodCGroupConfig (pvs : List KPV) (pod : KPod) : List BlkioWrite :=
  writeCgroupBlkioFile (podVolumesPass updateKindSingle pvs pod emptyCb)

/-- Parsing one line of a host throttle pseudo-file
(`pod_controller.go` lines 318–321): trim, split on a single space, take
fields 0 and 1. A line with fewer than two fields makes the Go code index
out of range — `none` models that panic. -/
def parseBlkioLine (line : String) : Option (String × String) :=
  match splitSpace (trimSpace line) with
  | a :: b :: _ => some (a, b)
  | _ => none

/-- Parse all lines of one pseudo-file into the previous-state map;
`none` models the index-out-of-range panic on a malformed line. -/
def parseBlkioLines (acc : List (String × String)) :
    List String → Option (List (String × String))
  | [] => some acc
  | l :: t =>
    match parseBlkioLine l with
    | none => none
    | some e => parseBlkioLines (ainsert acc e.1 e.2) t

/-- `readCGroupBlkioFile` (`pod_controller.go` lines 296–326): for each of
the four kinds, open the pseudo-file — an open error is logged and the kind
is skipped (its record is not appended at all) — and scan its lines into
`oldBlkio`. `files kind = none` models an open error; a `none` result
models the panic on a malformed line. -/
def readKindStep (files : String → Option (List String))
    (acc : Option (List Cgroupblkio)) (v : String) : Option (List Cgroupblkio) :=
  match acc with
  | none => none
  | some cb =>
    match files v with
    | none => some cb
    | some lines =>
      match parseBlkioLines [] lines with
      | none => none
      | some old => some (cb ++ [⟨v, BlkIOCGroupPath ++ v, old, []⟩])

def readCGroupBlkioFile (files : String → Option (List String)) :
    Option (List Cgroupblkio) :=
  cgroupKinds.foldl (readKindStep files) (some [])

/-- The pod set of the full-resync pass: `List` with
`MatchingFields{"combinedIndex": "<scheduler>-<node>"}` restricted to this
system's scheduler and the local node. -/
def matchingPods (nodeName : String) (pods : List KPod) : List KPod :=
  pods.filter (fun p => p.schedulerName == CarinaSchedule && p.nodeName == nodeName)

/-- `AllPodCGroupConfig` (`pod_controller.go` lines 206–256): read host
state, layer in every matching pod's desired values, then the write step.
`none` models the process crash from a malformed pseudo-file line. -/
def allPodCGroupConfig (nodeName : String) (pods : List KPod) (pvs : List KPV)
    (files : String → Option (List String)) : Option (List BlkioWrite) :=
  match readCGroupBlkioFile files with
  | none => none
  | some cb =>
    some (writeCgroupBlkioFile
      ((matchingPods nodeName pods).foldl
        (fun cb p => podVolumesPass updateKindResync pvs p cb) cb))

/-- The pod event filter (`podFilter.filter`, lines 263–271): local node and
this system's scheduler; used for create and update events (delete events
always return `false`). The deletion marker is not consulted. -/
def podFilterUpdate (nodeName : String) (pod : KPod) : Bool :=
  pod.nodeName == nodeName && pod.schedulerName == CarinaSchedule

/-- Result of the initial Get in `PodReconciler.Reconcile`. -/
inductive GetPodRes where
  | found (p : KPod)
  | notFound
  | apiError
  deriving Repr

/-- The wait loop of `PodReconciler.Reconcile` (lines 78–87), faithful to
the source: up to 5 iterations; a running phase breaks out to configure;
otherwise the pod is re-fetched and — as written, `if err == nil` — a
SUCCESSFUL re-fetch returns from Reconcile immediately (result `false`
here, meaning "do not configure"), while a FAILED re-fetch continues the
loop with the stale pod. Exhausting the 5 iterations proceeds to
configure. -/
def waitRunning (pod : KPod) (refreshOk : Nat → Bool) : Nat → Nat → Bool
  | 0, _ => true
  | n + 1, i =>
    if pod.phase == "Running" then true
    else if refreshOk i then false
    else waitRunning pod refreshOk n (i + 1)

/-- `PodReconciler.Reconcile` (`pod_controller.go` lines 61–94): returns
(no-error?, host writes issued). The controller never mutates any cluster
object on this path; its only effects are the host throttle writes. -/
def podReconcile (g : GetPodRes) (refreshOk : Nat → Bool) (pvs : List KPV) :
    Bool × List BlkioWrite :=
  match g with
  | .notFound => (true, [])
  | .apiError => (false, [])
  | .found pod =>
    if pod.deletionMarker then (true, [])
    else if waitRunning pod refreshOk 5 0 then (true, singlePodCGroupConfig pvs pod)
    else (true, [])

/-! ## Capacity Aggregator (`src/controllers/persistentvolume_controller.go`) -/

/-- The device-capacity key namespace (`utils.DeviceCapacityKeyPrefix`):
node capacity/allocatable keys carrying this namespace as a leading
substring are aggregated. -/
def DeviceCapacityKeyStr : String := "carina.storage.io"

/-- A cluster node as read by `updateNodeConfigMap`: name plus the
capacity/allocatable quantity maps (quantities as integers). -/
structure NodeCap where
  name : String
  capacity : List (String × Int)
  allocatable : List (String × Int)
  deriving Repr, DecidableEq

/-- One step of collecting a recognised quantity into the per-node record:
keys carrying the device-capacity namespace are kept under the given
section (`"capacity."` or `"allocatable."`). -/
def capInsert (pre : String) (m : List (String × String)) (e : String × Int) :
    List (String × String) :=
  if strStartsWith e.1 DeviceCapacityKeyStr then ainsert m (pre ++ e.1) (toString e.2)
  else m

/-- The recognised capacity and allocatable quantities of one node
(`tmp` before the `nodeName` field is added, lines 135–145). -/
def nodeRecordBase (n : NodeCap) : List (String × String) :=
  n.allocatable.foldl (capInsert "allocatable.") (n.capacity.foldl (capInsert "capacity.") [])

/-- The per-node record of `updateNodeConfigMap` (lines 134–149): every
capacity/allocatable quantity whose key carries the device-capacity
namespace, and — only when at least one such quantity exists — the
`nodeName` field. -/
def nodeRecord (n : NodeCap) : List (String × String) :=
  if (nodeRecordBase n).isEmpty then nodeRecordBase n
  else ainsert (nodeRecordBase n) "nodeName" n.name

/-- The `nodeDevice` list: one record per node that has at least one
recognised quantity, in node-list order. -/
def nodeDevice (nodes : List NodeCap) : List (List (String × String)) :=
  nodes.foldl
    (fun acc n =>
      let t := nodeRecord n
      if t.isEmpty then acc else acc ++ [t])
    []

/-- Modelled from the spec: `utils.MapEqualMap` (not under `src/`) —
"order-insensitive, field-exact equality" of two string maps. -/
def mapEqualMap (a b : List (String × String)) : Bool :=
  a.all (fun e => alookup b e.1 == some e.2) && b.all (fun e => alookup a e.1 == some e.2)

/-- The `nodeName` field of a record (Go map miss reads as `""`). -/
def recName (rec : List (String × String)) : String := alookupD rec "nodeName" ""

/-- `cacheHit` (`persistentvolume_controller.go` lines 198–213): the cached
snapshot and the candidate list have the same size and every candidate
record equals the cached record of its node. -/
def cacheHit (cache : List (String × List (String × String)))
    (nd : List (List (String × String))) : Bool :=
  cache.length == nd.length &&
  nd.all (fun rec =>
    match alookup cache (recName rec) with
    | none => false
    | some m => mapEqualMap rec m)

/-- `cacheRefresh` (lines 215–220): rebuild the cache keyed by node name. -/
def cacheRefresh (nd : List (List (String × String))) :
    List (String × List (String × String)) :=
  nd.foldl (fun c rec => ainsert c (recName rec) rec) []

/-- Result of fetching the `carina-node-storage` ConfigMap. -/
inductive CMGetRes where
  | found
  | notFound
  | apiError
  deriving Repr, DecidableEq

/-- Environment of one `updateNodeConfigMap` pass. -/
structure CMEnv where
  listOk : Bool
  nodes : List NodeCap
  cmGet : CMGetRes
  createOk : Bool
  updateOk : Bool

/-- An artifact write: creation of the ConfigMap or replacement of its
single data field, with the serialized record list. -/
inductive CMWrite where
  | create (data : List (List (String × String)))
  | update (data : List (List (String × String)))
  deriving Repr, DecidableEq

/-- Output of one `updateNodeConfigMap` pass: new cache, artifact writes
attempted, and whether the pass returned an error. -/
structure CMOut where
  cache : List (String × List (String × String))
  writes : List CMWrite
  err : Bool
  deriving Repr, DecidableEq

/-- `updateNodeConfigMap` (`persistentvolume_controller.go` lines 126–196).
Note the asymmetry taken from the source: after a successful Update the
cache is refreshed (line 194), but the Create branch returns without
refreshing the cache (lines 177–182). -/
def updateNodeConfigMap (env : CMEnv)
    (cache : List (String × List (String × String))) : CMOut :=
  if !env.listOk then ⟨cache, [], true⟩
  else
    let nd := nodeDevice env.nodes
    if cacheHit cache nd then ⟨cache, [], false⟩
    else
      match env.cmGet with
      | .apiError => ⟨cache, [], true⟩
      | .notFound =>
        if env.createOk then ⟨cache, [CMWrite.create nd], false⟩
        else ⟨cache, [CMWrite.create nd], true⟩
      | .found =>
        if env.updateOk then ⟨cacheRefresh nd, [CMWrite.update nd], false⟩
        else ⟨cache, [CMWrite.update nd], true⟩

/-- Two consecutive successful passes of the Capacity Aggregator over node
lists `nodes1`, `nodes2`, starting from cache `cache₀`; `cmExists` tells
whether the config artifact exists before the first pass (a create by the
first pass makes it exist for the second). Returns both outputs. -/
def twoPasses (nodes1 nodes2 : List NodeCap)
    (cache₀ : List (String × List (String × String))) (cmExists : Bool) :
    CMOut × CMOut :=
  let o1 := updateNodeConfigMap
    ⟨true, nodes1, (if cmExists then CMGetRes.found else CMGetRes.notFound), true, true⟩ cache₀
  let created := o1.writes.any (fun w => match w with | .create _ => true | _ => false)
  let o2 := updateNodeConfigMap
    ⟨true, nodes2, (if cmExists || created then CMGetRes.found else CMGetRes.notFound), true, true⟩
    o1.cache
  (o1, o2)

/-! ## Derived notions used in the claim statements -/

/-- One limit-kind record's contribution to `writeCgroupBlkioFile`:
no-op-suppressed desired entries, emitted as host writes. -/
def pruneAndEmit (c : Cgroupblkio) : List BlkioWrite :=
  (c.newBlkio.filter (fun e => !(alookup c.oldBlkio e.1 == some e.2))).map
    (fun e => ⟨c.name, e.1, e.2⟩)

/-- The host writes of a pass restricted to one limit kind and device key. -/
def writesFor (ws : List BlkioWrite) (kind k : String) : List BlkioWrite :=
  ws.filter (fun w => w.kind == kind && w.deviceKey == k)

/-- Whether pod `p` references device key `k` through one of its PVC-backed
volumes (resolved exactly as the controller resolves them). -/
def refsKey (pvs : List KPV) (p : KPod) (k : String) : Bool :=
  p.volumes.any (fun vol =>
    match vol with
    | none => false
    | some cn => resolveDeviceKey pvs p.ns cn == some k)

/-- The device keys pod `p` resolves, in volume order. -/
def podTouches (pvs : List KPV) (p : KPod) : List String :=
  p.volumes.filterMap (fun vol =>
    match vol with
    | none => none
    | some cn => resolveDeviceKey pvs p.ns cn)

/-- The flattened (pod, device-key) update sequence of a full-resync pass. -/
def allTouches (nodeName : String) (pods : List KPod) (pvs : List KPV) :
    List (KPod × String) :=
  (matchingPods nodeName pods).flatMap
    (fun p => (podTouches pvs p).map (fun k => (p, k)))

/-- Folding a sequence of (pod, device-key) updates over one record. -/
def evolveTouches (ts : List (KPod × String)) (c : Cgroupblkio) : Cgroupblkio :=
  ts.foldl (fun c t => updateKindResync t.1 t.2 c) c

/-- Whether the first occurrence of `patch` precedes the first occurrence of
`del` in an action trace (both must occur). -/
def patchBeforeDelete (acts : List LVAction) (patch del : LVAction) : Bool :=
  match acts.findIdx? (· == patch), acts.findIdx? (· == del) with
  | some i, some j => i < j
  | _, _ => false

/-- Whether some action of the trace concerns claim key `o`. -/
def processedIn (acts : List PVCAction) (o : ObjectKey) : Bool :=
  acts.any (fun a => pvcActionKey a == o)

/-! ## The claims, stated as predicates where a refutation is needed -/

/-- Claim C2 as stated: for every LogicVolume with empty owner-references,
non-empty status and no bound PersistentVolume, the pass deletes it, and —
when the rebuild finalizer token is present — the finalizer-stripping patch
(against the pre-mutation object) comes first and the delete second. -/
def claimC2Stmt (env : RebuildEnv) : Prop :=
  ∀ lv ∈ env.lvs.getD [],
    lv.ownerReferences = [] →
    lv.status ≠ "" →
    (env.pvNames.getD []).contains lv.name = false →
    (LVAction.deleteLV lv ∈ (getNeedRebuildVolume env).actions ∧
      (containsString lv.finalizers LogicVolumeFinalizer = true →
        patchBeforeDelete (getNeedRebuildVolume env).actions
          (LVAction.patchLV lv (stripFinalizer lv)) (LVAction.deleteLV lv) = true))

/-- Claim C3 as stated: in a full-resync pass, for each limit kind, a device
key present in the host-read previous state where no matching pod
referencing it carries the override annotation is written as `0` exactly
once; and a device key never present in the previous state and never
referenced by a matching pod is never written. -/
def claimC3Stmt (nodeName : String) (pods : List KPod) (pvs : List KPV)
    (files : String → Option (List String)) : Prop :=
  ∀ cb ∈ (readCGroupBlkioFile files).toList,
    ∀ ws ∈ (allPodCGroupConfig nodeName pods pvs files).toList,
      ∀ c ∈ cb,
        (∀ k ∈ akeys c.oldBlkio,
          (∀ p ∈ matchingPods nodeName pods,
            refsKey pvs p k = true → annotValue p c.name = none) →
          writesFor ws c.name k = [⟨c.name, k, "0"⟩]) ∧
        (∀ w ∈ ws, w.kind = c.name →
          w.deviceKey ∈ akeys c.oldBlkio ∨
          ∃ p ∈ matchingPods nodeName pods, refsKey pvs p w.deviceKey = true)

/-- Claim C4 as stated: if some candidate's claim fetch succeeds and its
bounded create retry (12 attempts) is exhausted, the pass reports an error
AND every candidate of the pass is still processed (has at least one claim
operation in the trace). -/
def claimC4Stmt (env : RebuildVolEnv) (cache₀ : List String)
    (m : List (String × ObjectKey)) : Prop :=
  (∃ e ∈ m,
      ((env.getPVC e.2).isSome && !((untilMaxRetry (env.createOk e.2) 12 0).1)) = true) →
  ((rebuildVolume env cache₀ m).failed = true ∧
    ∀ e ∈ m, processedIn (rebuildVolume env cache₀ m).actions e.2 = true)

/-- Claim C5 as stated: a candidate whose claim fetch succeeds but whose
12-attempt create retry is exhausted has its LogicVolume name recorded in
the negative cache at the end of the pass. -/
def claimC5Stmt (env : RebuildVolEnv) (cache₀ : List String)
    (m : List (String × ObjectKey)) : Prop :=
  ∀ e ∈ m,
    ((env.getPVC e.2).isSome && !((untilMaxRetry (env.createOk e.2) 12 0).1)) = true →
    e.1 ∈ (rebuildVolume env cache₀ m).cache

/-- Claim C8 as stated: two consecutive successful passes computing
identical per-node record sets (the second pass's node list being any
permutation of the first's), the first of which misses the cache, issue
exactly one artifact write in total — regardless of whether the artifact
existed before the first pass. -/
def claimC8Stmt (nodes1 nodes2 : List NodeCap)
    (cache₀ : List (String × List (String × String))) (cmExists : Bool) : Prop :=
  nodes2.Perm nodes1 →
  cacheHit cache₀ (nodeDevice nodes1) = false →
  ((twoPasses nodes1 nodes2 cache₀ cmExists).1.writes ++
    (twoPasses nodes1 nodes2 cache₀ cmExists).2.writes).length = 1

/-! ## Concrete instances used in counterexamples and witnesses -/

/-- A single-LogicVolume scan environment with empty node and volume lists
and always-successful Delete/Patch calls. -/
def singleLvEnv (lv : LogicVolume) (pvNames : List String) : RebuildEnv :=
  ⟨some [lv], some [], some pvNames, [], fun _ => true, fun _ => true⟩

/-- An orphaned LogicVolume (terminal status, no bound volume) carrying the
rebuild finalizer token. -/
def lvC2 : LogicVolume :=
  ⟨"lv1", "node1", "ns1", "pvc1", "Success", [LogicVolumeFinalizer], []⟩

/-- Scan environment containing only `lvC2`. -/
def envC2 : RebuildEnv := singleLvEnv lvC2 []

/-- An original claim as fetched during rebuild. -/
def pvcC4 : PVC := ⟨"ns1", "orig", ⟨"rwo", "sel", "10Gi", "sc", "fs", "ds"⟩, "Bound"⟩

/-- Rebuild environment where every fetch succeeds and only the claim named
`"p2"` can ever be created. -/
def envC4 : RebuildVolEnv := ⟨fun _ => some pvcC4, fun o _ => o.name == "p2"⟩

/-- Two rebuild candidates; the first exhausts its create retries. -/
def mC4 : List (String × ObjectKey) := [("lv1", ⟨"ns1", "p1"⟩), ("lv2", ⟨"ns1", "p2"⟩)]

/-- Rebuild environment where every fetch succeeds and no create ever
succeeds. -/
def envC5 : RebuildVolEnv := ⟨fun _ => some pvcC4, fun _ _ => false⟩

/-- A single rebuild candidate. -/
def mC5 : List (String × ObjectKey) := [("lv1", ⟨"ns1", "p1"⟩)]

/-- Host throttle pseudo-files all reading `8:16 100`. -/
def filesC3 : String → Option (List String) := fun _ => some ["8:16 100"]

/-- Host throttle pseudo-files all containing a line with no second field. -/
def filesC7 : String → Option (List String) := fun _ => some ["8:16"]

/-- A PersistentVolume of this plugin bound to claim `ns1/c1`, exposing
device `8:16`. -/
def pvDev816 : KPV :=
  ⟨"pv1", some ⟨CSIPluginName, [(VolumeDeviceMajor, "8"), (VolumeDeviceMinor, "16")]⟩,
    some ⟨"ns1", "c1"⟩⟩

/-- A matching pod referencing claim `c1` with no throttle annotations. -/
def podPlain : KPod :=
  ⟨"ns1", "pod1", "node1", CarinaSchedule, [], false, "Running", [some "c1"]⟩

/-- A matching pod referencing claim `c1`, not yet running, with a
read-bytes throttle annotation. -/
def podC6 : KPod :=
  ⟨"ns1", "pod1", "node1", CarinaSchedule,
    [(KubernetesCustomized ++ "/" ++ BlkIOThrottleReadBPS, "104857600")],
    false, "Pending", [some "c1"]⟩

/-- `podC6` after reaching the running phase. -/
def podC6run : KPod := { podC6 with phase := "Running" }

/-- A matching pod carrying a deletion marker. -/
def podC10 : KPod := { podC6 with deletionMarker := true }

/-- A LogicVolume owned by another subsystem (non-empty owner references). -/
def lvOwnedW : LogicVolume :=
  ⟨"lvA", "n1", "nsA", "pvcA", "Success", [LogicVolumeFinalizer], ["bcache-owner"]⟩

/-- An orphaned, owner-free LogicVolume. -/
def lvOrphanW : LogicVolume :=
  ⟨"lvB", "n1", "nsB", "pvcB", "Success", [LogicVolumeFinalizer], []⟩

/-- Full-pass environment listing one owned and one orphaned LogicVolume. -/
def passEnvW : PassEnv :=
  ⟨⟨some [lvOwnedW, lvOrphanW], some [], some [], [], fun _ => true, fun _ => true⟩,
    ⟨fun _ => none, fun _ _ => true⟩⟩

/-- A node carrying one recognised device-capacity quantity. -/
def nodeC8 : NodeCap := ⟨"n1", [("carina.storage.io/carina-vg-hdd", 100)], []⟩

/-- Invariant of the scan trace (used for C1 and C9): every deletion
targets a listed LogicVolume with empty owner references; every patch
targets a listed LogicVolume with empty owner references and submits
exactly its finalizer-stripped copy. -/
def scanActionOK (L : List LogicVolume) : LVAction → Prop
  | .deleteLV lv => lv ∈ L ∧ lv.ownerReferences = []
  | .patchLV old new => old ∈ L ∧ old.ownerReferences = [] ∧ new = stripFinalizer old

/-- Invariant of the candidate map: every entry derives from a listed
LogicVolume with empty owner references. -/
def scanEntryOK (L : List LogicVolume) (e : String × ObjectKey) : Prop :=
  ∃ lv, lv ∈ L ∧ lv.ownerReferences = [] ∧ e = (lv.name, ObjectKey.mk lv.ns lv.pvc)

/-! ## Theorems

General facts about the association-list embedding of Go maps, followed by
the claims. -/
@[simp] theorem akeys_nil {β : Type} : akeys ([] : List (String × β)) = [] := rfl

@[simp] theorem akeys_cons {β : Type} (k : String) (v : β) (t : List (String × β)) :
    akeys ((k, v) :: t) = k :: akeys t := rfl

theorem alookup_ainsert_self {β : Type} (m : List (String × β)) (k : String) (v : β) :
    alookup (ainsert m k v) k = some v := by
  induction m with
  | nil => simp [ainsert, alookup]
  | cons p t ih =>
    obtain ⟨k', v'⟩ := p
    by_cases h : k' = k <;> simp [ainsert, alookup, h, ih]

theorem alookup_ainsert_ne {β : Type} (m : List (String × β)) (k k' : String) (v : β)
    (h : k' ≠ k) : alookup (ainsert m k v) k' = alookup m k' := by
  have h2 : ¬ (k = k') := fun he => h he.symm
  induction m with
  | nil => simp [ainsert, alookup, h2]
  | cons p t ih =>
    obtain ⟨k₀, v₀⟩ := p
    by_cases h₀ : k₀ = k
    · subst h₀
      simp [ainsert, alookup, h2]
    · by_cases h₁ : k₀ = k' <;> simp [ainsert, alookup, h₀, h₁, ih, h]

theorem mem_akeys_ainsert {β : Type} (m : List (String × β)) (k k' : String) (v : β) :
    k' ∈ akeys (ainsert m k v) ↔ k' = k ∨ k' ∈ akeys m := by
  induction m with
  | nil => simp [ainsert]
  | cons p t ih =>
    obtain ⟨k₀, v₀⟩ := p
    by_cases h₀ : k₀ = k
    · subst h₀
      simp [ainsert]
    · simp only [ainsert, if_neg h₀, akeys_cons, List.mem_cons, ih]
      tauto

theorem nodup_akeys_ainsert {β : Type} (m : List (String × β)) (k : String) (v : β)
    (h : (akeys m).Nodup) : (akeys (ainsert m k v)).Nodup := by
  induction m with
  | nil => simp [ainsert]
  | cons p t ih =>
    obtain ⟨k₀, v₀⟩ := p
    simp only [akeys_cons, List.nodup_cons] at h
    by_cases h₀ : k₀ = k
    · subst h₀
      simpa [ainsert] using h
    · simp only [ainsert, if_neg h₀, akeys_cons, List.nodup_cons]
      refine ⟨fun hmem => ?_, ih h.2⟩
      rcases (mem_akeys_ainsert t k k₀ v).mp hmem with h' | h'
      · exact h₀ h'
      · exact h.1 h'

theorem alookup_eq_none_of_not_mem_akeys {β : Type} (m : List (String × β)) (k : String)
    (h : k ∉ akeys m) : alookup m k = none := by
  induction m with
  | nil => rfl
  | cons p t ih =>
    obtain ⟨k₀, v₀⟩ := p
    simp only [akeys_cons, List.mem_cons] at h
    push_neg at h
    have hne : ¬ k₀ = k := fun he => h.1 he.symm
    simp [alookup, hne, ih h.2]

theorem alookup_isSome_iff_mem_akeys {β : Type} (m : List (String × β)) (k : String) :
    (alookup m k).isSome ↔ k ∈ akeys m := by
  induction m with
  | nil => simp [alookup]
  | cons p t ih =>
    obtain ⟨k₀, v₀⟩ := p
    by_cases h : k₀ = k
    · simp [alookup, h]
    · have hne : ¬ k = k₀ := fun he => h he.symm
      simp [alookup, h, hne, ih]


theorem mem_ainsert_elim {β : Type} (m : List (String × β)) (k : String) (v : β)
    (e : String × β) (h : e ∈ ainsert m k v) : e = (k, v) ∨ e ∈ m := by
  induction m with
  | nil => simpa [ainsert] using h
  | cons p t ih =>
    obtain ⟨k₀, v₀⟩ := p
    by_cases h₀ : k₀ = k
    · subst h₀
      rcases (by simpa [ainsert] using h : e = (k₀, v) ∨ e ∈ t) with h' | h'
      · exact Or.inl h'
      · exact Or.inr (List.mem_cons_of_mem _ h')
    · rcases (by simpa [ainsert, h₀] using h : e = (k₀, v₀) ∨ e ∈ ainsert t k v) with h' | h'
      · exact Or.inr (by simp [h'])
      · rcases ih h' with h'' | h''
        · exact Or.inl h''
        · exact Or.inr (List.mem_cons_of_mem _ h'')

/-- `writeCgroupBlkioFile` is the concatenation of the per-record
prune-and-emit chunks. -/
theorem writeCgroupBlkioFile_eq (cb : List Cgroupblkio) :
    writeCgroupBlkioFile cb = cb.flatMap pruneAndEmit := rfl

/-- **C7** (code-bug evidence). Reading the host throttle pseudo-files is
NOT total: a line without a space-separated second field (`"8:16"`, or an
empty line) makes `strSlice[1]` index out of range — modelled as `none` —
so the full-resync pass crashes instead of treating the file as an empty
previous state. -/
theorem malformed_throttle_line_crashes_read :
    parseBlkioLine "8:16" = none ∧ parseBlkioLine "" = none ∧
    readCGroupBlkioFile filesC7 = none ∧
    allPodCGroupConfig "node1" [] [] filesC7 = none := by decide

/-- **C6** (code-bug evidence). The wait loop's `if err == nil { return }`
is inverted: for a pod that has not reached the running phase, the FIRST
successful re-fetch returns from Reconcile with no error and no host write
at all — the cgroup limits are never configured — while the same pod in
the running phase would have produced the four writes. The claim (poll up
to 5 times, then configure regardless) describes the commented intent, not
the code. -/
theorem pod_wait_inverted_check_skips_config :
    podReconcile (GetPodRes.found podC6) (fun _ => true) [pvDev816] = (true, []) ∧
    podReconcile (GetPodRes.found podC6run) (fun _ => true) [pvDev816] =
      (true, [⟨BlkIOThrottleReadBPS, "8:16", "104857600"⟩,
              ⟨BlkIOThrottleReadIOPS, "8:16", "0"⟩,
              ⟨BlkIOThrottleWriteBPS, "8:16", "0"⟩,
              ⟨BlkIOThrottleWriteIOPS, "8:16", "0"⟩]) := by decide

/-- **C10.** For every pod whose deletion marker is set, the single-pod
throttle reconcile returns success immediately with no host throttle write
(the embedded reconcile has no other effect — the controller performs no
cluster mutation on this path), even though such a pod passes the update
event filter whenever it is on the local node with this system's
scheduler. -/
theorem deleted_pod_reconcile_is_noop (pod : KPod) (refreshOk : Nat → Bool)
    (pvs : List KPV) (nodeName : String)
    (hdel : pod.deletionMarker = true)
    (hnode : pod.nodeName = nodeName) (hsched : pod.schedulerName = CarinaSchedule) :
    podReconcile (GetPodRes.found pod) refreshOk pvs = (true, []) ∧
    podFilterUpdate nodeName pod = true := by
  constructor
  · simp [podReconcile, hdel]
  · simp [podFilterUpdate, hnode, hsched]

/-- Witness for C10 at a concrete deleted pod. -/
theorem deleted_pod_reconcile_is_noop_witness :
    podReconcile (GetPodRes.found podC10) (fun _ => true) [pvDev816] = (true, []) ∧
    podFilterUpdate "node1" podC10 = true :=
  deleted_pod_reconcile_is_noop podC10 (fun _ => true) [pvDev816] "node1" rfl rfl rfl

theorem scanStep_inv (env : RebuildEnv) (pvNames : List String)
    (nodeStatus : List (String × String)) (L : List LogicVolume)
    (st : RebuildScan) (lv : LogicVolume) (hlv : lv ∈ L)
    (ha : ∀ a ∈ st.actions, scanActionOK L a)
    (he : ∀ e ∈ st.volumeObjectMap, scanEntryOK L e) :
    (∀ a ∈ (scanStep env pvNames nodeStatus st lv).actions, scanActionOK L a) ∧
    (∀ e ∈ (scanStep env pvNames nodeStatus st lv).volumeObjectMap, scanEntryOK L e) := by
  unfold scanStep
  by_cases hab : st.aborted = true
  · simp only [if_pos hab]
    exact ⟨ha, he⟩
  · simp only [if_neg hab]
    by_cases hown : (!lv.ownerReferences.isEmpty) = true
    · simp only [if_pos hown]
      exact ⟨ha, he⟩
    · simp only [if_neg hown]
      have hownEmpty : lv.ownerReferences = [] := by
        cases h : lv.ownerReferences with
        | nil => rfl
        | cons a t => rw [h] at hown; simp [List.isEmpty] at hown
      have hD : scanActionOK L (LVAction.deleteLV lv) := ⟨hlv, hownEmpty⟩
      have hP : scanActionOK L (LVAction.patchLV lv (stripFinalizer lv)) :=
        ⟨hlv, hownEmpty, rfl⟩
      have haD : ∀ a ∈ st.actions ++ [LVAction.deleteLV lv], scanActionOK L a :=
        List.forall_mem_append.mpr
          ⟨ha, by intro a hmem; rw [List.mem_singleton.mp hmem]; exact hD⟩
      have haDP : ∀ a ∈ (st.actions ++ [LVAction.deleteLV lv]) ++
          [LVAction.patchLV lv (stripFinalizer lv)], scanActionOK L a :=
        List.forall_mem_append.mpr
          ⟨haD, by intro a hmem; rw [List.mem_singleton.mp hmem]; exact hP⟩
      have haP : ∀ a ∈ st.actions ++ [LVAction.patchLV lv (stripFinalizer lv)],
          scanActionOK L a :=
        List.forall_mem_append.mpr
          ⟨ha, by intro a hmem; rw [List.mem_singleton.mp hmem]; exact hP⟩
      have heIns : ∀ e ∈ ainsert st.volumeObjectMap lv.name ⟨lv.ns, lv.pvc⟩,
          scanEntryOK L e := by
        intro e hmem
        rcases mem_ainsert_elim _ _ _ _ hmem with h | h
        · exact ⟨lv, hlv, hownEmpty, h⟩
        · exact he e h
      split
      · split
        · split
          · exact ⟨haD, he⟩
          · split
            · exact ⟨haDP, he⟩
            · exact ⟨haDP, he⟩
        · exact ⟨ha, he⟩
      · split
        · exact ⟨ha, he⟩
        · split
          · split
            · exact ⟨haP, heIns⟩
            · exact ⟨haP, heIns⟩
          · exact ⟨ha, heIns⟩

theorem scan_foldl_inv (env : RebuildEnv) (pvNames : List String)
    (nodeStatus : List (String × String)) (L : List LogicVolume)
    (l : List LogicVolume) (hsub : ∀ x ∈ l, x ∈ L) (st : RebuildScan)
    (ha : ∀ a ∈ st.actions, scanActionOK L a)
    (he : ∀ e ∈ st.volumeObjectMap, scanEntryOK L e) :
    (∀ a ∈ (l.foldl (scanStep env pvNames nodeStatus) st).actions, scanActionOK L a) ∧
    (∀ e ∈ (l.foldl (scanStep env pvNames nodeStatus) st).volumeObjectMap,
      scanEntryOK L e) := by
  induction l generalizing st with
  | nil => exact ⟨ha, he⟩
  | cons x t ih =>
    have hx : x ∈ L := hsub x (List.mem_cons_self x t)
    have h := scanStep_inv env pvNames nodeStatus L st x hx ha he
    exact ih (fun y hy => hsub y (List.mem_cons_of_mem x hy)) _ h.1 h.2

theorem getNeedRebuildVolume_inv (env : RebuildEnv) :
    (∀ a ∈ (getNeedRebuildVolume env).actions, scanActionOK (env.lvs.getD []) a) ∧
    (∀ e ∈ (getNeedRebuildVolume env).volumeObjectMap,
      scanEntryOK (env.lvs.getD []) e) := by
  unfold getNeedRebuildVolume
  cases hl : env.lvs with
  | none => constructor <;> intro x hx <;> simp at hx
  | some lvs =>
    simp only [Option.getD_some]
    split
    · constructor <;> intro x hx <;> simp at hx
    · cases hn : env.nodes with
      | none => constructor <;> intro x hx <;> simp at hx
      | some nodes =>
        cases hp : env.pvNames with
        | none => constructor <;> intro x hx <;> simp at hx
        | some pvNames =>
          exact scan_foldl_inv env pvNames (nodeStatusMap nodes) lvs lvs
            (fun x hx => hx) ⟨[], [], false⟩
            (by intro a hmem; simp at hmem) (by intro e hmem; simp at hmem)

theorem rebuildStep_inv (env : RebuildVolEnv) (m : List (String × ObjectKey))
    (st : RebuildRun) (e : String × ObjectKey) (hmem : e ∈ m)
    (ha : ∀ a ∈ st.actions, ∃ e' ∈ m, pvcActionKey a = e'.2) :
    ∀ a ∈ (rebuildStep env st e).actions, ∃ e' ∈ m, pvcActionKey a = e'.2 := by
  have hkey : (ObjectKey.mk e.2.ns e.2.name) = e.2 := by cases e.2; rfl
  by_cases hf : st.failed = true
  · simp only [rebuildStep, if_pos hf]
    exact ha
  · cases hg : env.getPVC e.2 with
    | none =>
      simp only [rebuildStep, if_neg hf, hg]
      intro a hmem'
      rcases List.mem_append.mp hmem' with h | h
      · exact ha a h
      · rw [List.mem_singleton.mp h]
        exact ⟨e, hmem, rfl⟩
    | some pvc =>
      have hnew : ∀ a ∈ st.actions ++
          [PVCAction.deletePVC (rebuildPvc e.2 pvc),
            PVCAction.createPVC (rebuildPvc e.2 pvc)
              (untilMaxRetry (env.createOk e.2) 12 0).2],
          ∃ e' ∈ m, pvcActionKey a = e'.2 := by
        intro a hmem'
        rcases List.mem_append.mp hmem' with h | h
        · exact ha a h
        · rcases List.mem_cons.mp h with h' | h'
          · rw [h']; exact ⟨e, hmem, hkey⟩
          · rw [List.mem_singleton.mp h']; exact ⟨e, hmem, hkey⟩
      simp only [rebuildStep, if_neg hf, hg]
      split
      · exact hnew
      · exact hnew

theorem rebuild_foldl_inv (env : RebuildVolEnv) (m : List (String × ObjectKey))
    (l : List (String × ObjectKey)) (hsub : ∀ x ∈ l, x ∈ m) (st : RebuildRun)
    (ha : ∀ a ∈ st.actions, ∃ e' ∈ m, pvcActionKey a = e'.2) :
    ∀ a ∈ (l.foldl (rebuildStep env) st).actions, ∃ e' ∈ m, pvcActionKey a = e'.2 := by
  induction l generalizing st with
  | nil => exact ha
  | cons x t ih =>
    have h := rebuildStep_inv env m st x (hsub x (List.mem_cons_self x t)) ha
    exact ih (fun y hy => hsub y (List.mem_cons_of_mem x hy)) _ h

theorem rebuildVolume_inv (env : RebuildVolEnv) (cache₀ : List String)
    (m : List (String × ObjectKey)) :
    ∀ a ∈ (rebuildVolume env cache₀ m).actions, ∃ e' ∈ m, pvcActionKey a = e'.2 :=
  rebuild_foldl_inv env m m (fun _ hx => hx) ⟨cache₀, [], false⟩
    (by intro a hmem; simp at hmem)

theorem resourceReconcile_fst (env : PassEnv) :
    (resourceReconcile env).1 = getNeedRebuildVolume env.scan := by
  unfold resourceReconcile
  split <;> rfl

theorem resourceReconcile_snd (env : PassEnv) :
    (resourceReconcile env).2 =
      if (getNeedRebuildVolume env.scan).aborted then
        (⟨env.scan.cache, [], true⟩ : RebuildRun)
      else rebuildVolume env.run env.scan.cache
        (getNeedRebuildVolume env.scan).volumeObjectMap := by
  unfold resourceReconcile
  split <;> simp_all

/-- **C1.** A full Volume-Rebuild pass never touches a LogicVolume whose
owner-reference set is non-empty: (i) such a LogicVolume is never the
target of a delete or of a patch; (ii) every rebuild-candidate entry of
`volumeObjectMap` derives from a LogicVolume with an EMPTY owner-reference
set; (iii) every claim operation of the rebuild phase (fetch, delete,
create) targets the key of some recorded candidate — so nothing derived
from an owned LogicVolume is deleted or recreated. -/
theorem owned_logicvolumes_untouched (env : PassEnv) :
    (∀ lv : LogicVolume, lv.ownerReferences ≠ [] →
      LVAction.deleteLV lv ∉ (resourceReconcile env).1.actions ∧
      ∀ nw : LogicVolume, LVAction.patchLV lv nw ∉ (resourceReconcile env).1.actions) ∧
    (∀ e ∈ (resourceReconcile env).1.volumeObjectMap,
      ∃ lv, lv ∈ env.scan.lvs.getD [] ∧ lv.ownerReferences = [] ∧
        e = (lv.name, ObjectKey.mk lv.ns lv.pvc)) ∧
    (∀ a ∈ (resourceReconcile env).2.actions,
      ∃ e ∈ (resourceReconcile env).1.volumeObjectMap, pvcActionKey a = e.2) := by
  have hinv := getNeedRebuildVolume_inv env.scan
  rw [resourceReconcile_fst]
  refine ⟨?_, hinv.2, ?_⟩
  · intro lv hown
    constructor
    · intro hmem
      exact hown (hinv.1 _ hmem).2
    · intro nw hmem
      exact hown (hinv.1 _ hmem).2.1
  · rw [resourceReconcile_snd]
    split
    · intro a hmem; simp at hmem
    · exact rebuildVolume_inv env.run env.scan.cache _

/-- Witness for C1: in a pass over one owned and one orphaned LogicVolume,
the owned one is never deleted. -/
theorem owned_logicvolumes_untouched_witness :
    LVAction.deleteLV lvOwnedW ∉ (resourceReconcile passEnvW).1.actions :=
  ((owned_logicvolumes_untouched passEnvW).1 lvOwnedW (by decide)).1

/-- **C9.** Every finalizer-stripping patch issued by the Volume-Rebuild
Controller removes only the rebuild finalizer token: the patched object
keeps every other field (name, node, namespace, claim name, status, owner
references) exactly, keeps every finalizer token other than the rebuild
token, and no longer carries the rebuild token. -/
theorem patch_strips_only_rebuild_finalizer (env : PassEnv) :
    ∀ old nw : LogicVolume,
      LVAction.patchLV old nw ∈ (resourceReconcile env).1.actions →
      nw.name = old.name ∧ nw.nodeName = old.nodeName ∧ nw.ns = old.ns ∧
      nw.pvc = old.pvc ∧ nw.status = old.status ∧
      nw.ownerReferences = old.ownerReferences ∧
      LogicVolumeFinalizer ∉ nw.finalizers ∧
      (∀ t : String, t ≠ LogicVolumeFinalizer → (t ∈ nw.finalizers ↔ t ∈ old.finalizers)) := by
  intro old nw hmem
  rw [resourceReconcile_fst] at hmem
  have h := (getNeedRebuildVolume_inv env.scan).1 _ hmem
  obtain ⟨-, -, hstrip⟩ := h
  subst hstrip
  refine ⟨rfl, rfl, rfl, rfl, rfl, rfl, ?_, ?_⟩
  · intro hmem'
    have := List.of_mem_filter hmem'
    simp at this
  · intro t ht
    constructor
    · intro hmem'
      exact (List.mem_filter.mp hmem').1
    · intro hmem'
      exact List.mem_filter.mpr ⟨hmem', by simpa using ht⟩

/-- Witness for C9 at the patch issued for the orphaned LogicVolume of
`passEnvW`. -/
theorem patch_strips_only_rebuild_finalizer_witness :
    (stripFinalizer lvOrphanW).status = lvOrphanW.status ∧
    LogicVolumeFinalizer ∉ (stripFinalizer lvOrphanW).finalizers :=
  have h := patch_strips_only_rebuild_finalizer passEnvW lvOrphanW
    (stripFinalizer lvOrphanW) (by decide)
  ⟨h.2.2.2.2.1, h.2.2.2.2.2.2.1⟩

/-- **C2** counterexample. The claim (patch the finalizer away first, then
delete) is false on the code: for the orphaned LogicVolume `lvC2` carrying
the rebuild finalizer token, the pass issues the DELETE first and the
finalizer-stripping patch second (`node_controller.go` lines 153–165), so
the patch does not precede the delete. -/
theorem orphan_patch_first_refuted : ¬ claimC2Stmt envC2 := by
  unfold claimC2Stmt
  decide

/-- **C2** (amended). For a LogicVolume with empty owner references,
non-empty status and no bound PersistentVolume, scanned on its own with
succeeding cluster calls: when the rebuild finalizer token is present the
controller first DELETES the LogicVolume and then strips the token via a
patch against the pre-mutation object; when the token is absent the
LogicVolume is left completely untouched (no delete at all). -/
theorem orphan_delete_then_patch (lv : LogicVolume) (pvNames : List String)
    (hown : lv.ownerReferences = [])
    (hst : lv.status ≠ "")
    (hpv : pvNames.contains lv.name = false) :
    (containsString lv.finalizers LogicVolumeFinalizer = true →
      (getNeedRebuildVolume (singleLvEnv lv pvNames)).actions =
        [LVAction.deleteLV lv, LVAction.patchLV lv (stripFinalizer lv)] ∧
      (getNeedRebuildVolume (singleLvEnv lv pvNames)).volumeObjectMap = []) ∧
    (containsString lv.finalizers LogicVolumeFinalizer = false →
      getNeedRebuildVolume (singleLvEnv lv pvNames) = ⟨[], [], false⟩) := by
  have hbne : (lv.status != "") = true := by
    simp [bne_iff_ne, hst]
  have hpv2 : lv.name ∉ pvNames := by simpa using hpv
  constructor
  · intro hc
    simp [getNeedRebuildVolume, singleLvEnv, scanStep, hown, hbne, hpv2, hc]
  · intro hc
    simp [getNeedRebuildVolume, singleLvEnv, scanStep, hown, hbne, hpv2, hc]

/-- Witness for the amended C2 at the concrete orphan `lvC2`. -/
theorem orphan_delete_then_patch_witness :
    (getNeedRebuildVolume (singleLvEnv lvC2 [])).actions =
      [LVAction.deleteLV lvC2, LVAction.patchLV lvC2 (stripFinalizer lvC2)] ∧
    (getNeedRebuildVolume (singleLvEnv lvC2 [])).volumeObjectMap = [] :=
  (orphan_delete_then_patch lvC2 [] rfl (by decide) rfl).1 (by decide)

theorem untilMaxRetry_all_fail (ok : Nat → Bool) :
    ∀ (n made : Nat), (∀ i, i < made + n → ok i = false) →
      untilMaxRetry ok n made = (false, made + n) := by
  intro n
  induction n with
  | zero => intro made _; simp [untilMaxRetry]
  | succ n ih =>
    intro made h
    have h0 : ok made = false := h made (by omega)
    have h1 : untilMaxRetry ok n (made + 1) = (false, made + 1 + n) :=
      ih (made + 1) (fun i hi => h i (by omega))
    simp [untilMaxRetry, h0, h1]
    omega

theorem foldl_rebuildStep_failed (env : RebuildVolEnv)
    (l : List (String × ObjectKey)) (st : RebuildRun) (hf : st.failed = true) :
    l.foldl (rebuildStep env) st = st := by
  induction l with
  | nil => rfl
  | cons x t ih =>
    have hx : rebuildStep env st x = st := by
      simp [rebuildStep, hf]
    rw [List.foldl_cons, hx, ih]

/-- **C4** counterexample. With two rebuild candidates where the first
candidate's create retry is exhausted (and the second's create would
succeed), the pass returns an error but the second candidate is never
processed: `return err` at `node_controller.go` line 236 exits the loop. -/
theorem retry_exhaustion_skips_candidates : ¬ claimC4Stmt envC4 [] mC4 := by
  unfold claimC4Stmt
  decide

/-- **C4** (amended). When the first candidate's claim fetch succeeds and
its 12-attempt create retry is exhausted, the candidate's failure is
reported as an error — and the pass ABORTS: the remaining candidates are
ignored entirely (the run equals the run on the first candidate alone,
whose trace ends with the 12-attempt create). They are only retried by the
next periodic pass. -/
theorem retry_exhaustion_aborts_pass (env : RebuildVolEnv) (k : String) (o : ObjectKey)
    (rest : List (String × ObjectKey)) (cache₀ : List String) (pvc : PVC)
    (hget : env.getPVC o = some pvc)
    (hfail : ∀ i, i < 12 → env.createOk o i = false) :
    rebuildVolume env cache₀ ((k, o) :: rest) = rebuildVolume env cache₀ [(k, o)] ∧
    (rebuildVolume env cache₀ [(k, o)]).failed = true ∧
    (rebuildVolume env cache₀ [(k, o)]).actions =
      [PVCAction.deletePVC (rebuildPvc o pvc), PVCAction.createPVC (rebuildPvc o pvc) 12] := by
  have hretry : untilMaxRetry (env.createOk o) 12 0 = (false, 12) :=
    untilMaxRetry_all_fail (env.createOk o) 12 0 (fun i hi => hfail i (by omega))
  have hstep : rebuildStep env ⟨cache₀, [], false⟩ (k, o) =
      ⟨cache₀, [PVCAction.deletePVC (rebuildPvc o pvc),
        PVCAction.createPVC (rebuildPvc o pvc) 12], true⟩ := by
    simp [rebuildStep, hget, hretry]
  refine ⟨?_, ?_, ?_⟩
  · show ((k, o) :: rest).foldl (rebuildStep env) ⟨cache₀, [], false⟩ =
      [(k, o)].foldl (rebuildStep env) ⟨cache₀, [], false⟩
    rw [List.foldl_cons, List.foldl_cons, List.foldl_nil, hstep,
      foldl_rebuildStep_failed env rest _ rfl]
  · show ([(k, o)].foldl (rebuildStep env) ⟨cache₀, [], false⟩).failed = true
    rw [List.foldl_cons, List.foldl_nil, hstep]
  · show ([(k, o)].foldl (rebuildStep env) ⟨cache₀, [], false⟩).actions = _
    rw [List.foldl_cons, List.foldl_nil, hstep]

/-- Witness for the amended C4 at the concrete always-failing environment. -/
theorem retry_exhaustion_aborts_pass_witness :
    rebuildVolume envC5 [] (("lv1", ⟨"ns1", "p1"⟩) :: [("lv2", ⟨"ns1", "p2"⟩)]) =
      rebuildVolume envC5 [] [("lv1", ⟨"ns1", "p1"⟩)] ∧
    (rebuildVolume envC5 [] [("lv1", ⟨"ns1", "p1"⟩)]).failed = true ∧
    (rebuildVolume envC5 [] [("lv1", ⟨"ns1", "p1"⟩)]).actions =
      [PVCAction.deletePVC (rebuildPvc ⟨"ns1", "p1"⟩ pvcC4),
        PVCAction.createPVC (rebuildPvc ⟨"ns1", "p1"⟩ pvcC4) 12] :=
  retry_exhaustion_aborts_pass envC5 "lv1" ⟨"ns1", "p1"⟩ [("lv2", ⟨"ns1", "p2"⟩)] []
    pvcC4 rfl (fun _ _ => rfl)

/-- **C5** counterexample. A candidate whose claim fetch succeeds but whose
12-attempt create retry is exhausted is NOT recorded in the negative cache
(`cacheNoDeleteLv` is only written on a claim-fetch failure,
`node_controller.go` line 200), so nothing prevents the next pass from
retrying the same LogicVolume. -/
theorem exhausted_retry_not_cached : ¬ claimC5Stmt envC5 [] mC5 := by
  unfold claimC5Stmt
  decide

/-- **C5** (amended). The negative cache only records claim-fetch failures:
whenever every candidate's claim fetch succeeds — in particular when a
candidate merely exhausts its 12-attempt create retry — the negative cache
is unchanged by the pass, so the same LogicVolume is selected again by the
next periodic pass with no fresh trigger needed. -/
theorem cache_unchanged_when_fetches_succeed (env : RebuildVolEnv)
    (cache₀ : List String) (m : List (String × ObjectKey))
    (h : ∀ e ∈ m, (env.getPVC e.2).isSome = true) :
    (rebuildVolume env cache₀ m).cache = cache₀ := by
  suffices hgen : ∀ (l : List (String × ObjectKey)) (st : RebuildRun),
      (∀ e ∈ l, (env.getPVC e.2).isSome = true) →
      (l.foldl (rebuildStep env) st).cache = st.cache by
    exact hgen m ⟨cache₀, [], false⟩ h
  intro l
  induction l with
  | nil => intro st _; rfl
  | cons x t ih =>
    intro st hl
    have hx : (env.getPVC x.2).isSome = true := hl x (List.mem_cons_self x t)
    have hcache : (rebuildStep env st x).cache = st.cache := by
      by_cases hf : st.failed = true
      · simp [rebuildStep, hf]
      · cases hg : env.getPVC x.2 with
        | none => rw [hg] at hx; simp at hx
        | some pvc =>
          simp only [rebuildStep, if_neg hf, hg]
          split <;> rfl
    rw [List.foldl_cons, ih _ (fun e he => hl e (List.mem_cons_of_mem x he)), hcache]

/-- Witness for the amended C5: the pass over `mC4` (all fetches succeed,
first create retry exhausted) leaves the negative cache empty. -/
theorem cache_unchanged_when_fetches_succeed_witness :
    (rebuildVolume envC4 [] mC4).cache = [] :=
  cache_unchanged_when_fetches_succeed envC4 [] mC4 (by decide)

theorem ainsert_append_of_not_mem {β : Type} (m : List (String × β)) (k : String) (v : β)
    (h : k ∉ akeys m) : ainsert m k v = m ++ [(k, v)] := by
  induction m with
  | nil => rfl
  | cons p t ih =>
    obtain ⟨k₀, v₀⟩ := p
    simp only [akeys_cons, List.mem_cons] at h
    push_neg at h
    have hne : ¬ k₀ = k := fun he => h.1 he.symm
    simp [ainsert, hne, ih h.2]

theorem alookup_self_of_nodup {β : Type} (m : List (String × β))
    (hnd : (akeys m).Nodup) : ∀ e ∈ m, alookup m e.1 = some e.2 := by
  induction m with
  | nil => intro e he; simp at he
  | cons p t ih =>
    obtain ⟨k₀, v₀⟩ := p
    simp only [akeys_cons, List.nodup_cons] at hnd
    intro e he
    rcases List.mem_cons.mp he with h | h
    · subst h; simp [alookup]
    · have hk : e.1 ∈ akeys t := by
        simpa [akeys] using List.mem_map_of_mem Prod.fst h
      have hne : ¬ k₀ = e.1 := fun he' => hnd.1 (he' ▸ hk)
      simp [alookup, hne, ih hnd.2 e h]

theorem nodup_akeys_capFold (pre : String) (l : List (String × Int))
    (m : List (String × String)) (h : (akeys m).Nodup) :
    (akeys (l.foldl (capInsert pre) m)).Nodup := by
  induction l generalizing m with
  | nil => exact h
  | cons e t ih =>
    rw [List.foldl_cons]
    apply ih
    unfold capInsert
    split
    · exact nodup_akeys_ainsert _ _ _ h
    · exact h

theorem nodeRecord_keys_nodup (n : NodeCap) : (akeys (nodeRecord n)).Nodup := by
  have hb : (akeys (nodeRecordBase n)).Nodup :=
    nodup_akeys_capFold "allocatable." n.allocatable _
      (nodup_akeys_capFold "capacity." n.capacity [] (by simp))
  unfold nodeRecord
  split
  · exact hb
  · exact nodup_akeys_ainsert _ _ _ hb

theorem mapEqualMap_refl (m : List (String × String)) (hnd : (akeys m).Nodup) :
    mapEqualMap m m = true := by
  unfold mapEqualMap
  rw [Bool.and_self]
  rw [List.all_eq_true]
  intro e he
  simp [alookup_self_of_nodup m hnd e he]

theorem nodeDevice_eq_filterMap (nodes : List NodeCap) :
    nodeDevice nodes = nodes.filterMap
      (fun n => if (nodeRecord n).isEmpty then none else some (nodeRecord n)) := by
  suffices hgen : ∀ (l : List NodeCap) (acc : List (List (String × String))),
      l.foldl (fun acc n => if (nodeRecord n).isEmpty then acc else acc ++ [nodeRecord n]) acc
        = acc ++ l.filterMap
            (fun n => if (nodeRecord n).isEmpty then none else some (nodeRecord n)) by
    simpa [nodeDevice] using hgen nodes []
  intro l
  induction l with
  | nil => intro acc; simp
  | cons n t ih =>
    intro acc
    rw [List.foldl_cons, List.filterMap_cons]
    by_cases h : (nodeRecord n).isEmpty = true
    · simp only [if_pos h, h]
      exact ih acc
    · simp only [if_neg h, Bool.not_eq_true] at *
      simp only [h, ih (acc ++ [nodeRecord n])]
      simp

theorem mem_nodeDevice_nodup_keys (nodes : List NodeCap)
    (r : List (String × String)) (hr : r ∈ nodeDevice nodes) : (akeys r).Nodup := by
  rw [nodeDevice_eq_filterMap] at hr
  rcases List.mem_filterMap.mp hr with ⟨n, -, hn⟩
  by_cases h : (nodeRecord n).isEmpty = true
  · rw [if_pos h] at hn; cases hn
  · rw [if_neg h] at hn
    cases hn
    exact nodeRecord_keys_nodup n

theorem nodeDevice_perm (nodes1 nodes2 : List NodeCap) (hperm : nodes2.Perm nodes1) :
    (nodeDevice nodes2).Perm (nodeDevice nodes1) := by
  rw [nodeDevice_eq_filterMap, nodeDevice_eq_filterMap]
  exact hperm.filterMap _

theorem cacheRefresh_eq_map (nd : List (List (String × String)))
    (hnd : (nd.map recName).Nodup) :
    cacheRefresh nd = nd.map (fun r => (recName r, r)) := by
  suffices hgen : ∀ (l : List (List (String × String)))
      (acc : List (String × List (String × String))),
      (akeys acc ++ l.map recName).Nodup →
      l.foldl (fun c rec => ainsert c (recName rec) rec) acc
        = acc ++ l.map (fun r => (recName r, r)) by
    simpa [cacheRefresh] using hgen nd [] (by simpa using hnd)
  intro l
  induction l with
  | nil => intro acc _; simp
  | cons r t ih =>
    intro acc hnd'
    have hnotmem : recName r ∉ akeys acc := by
      intro hmem
      rcases List.disjoint_of_nodup_append hnd' hmem with h
      exact h (by simp)
    rw [List.foldl_cons, ainsert_append_of_not_mem _ _ _ hnotmem, List.map_cons]
    have hassoc : akeys (acc ++ [(recName r, r)]) ++ t.map recName
        = akeys acc ++ recName r :: t.map recName := by
      simp [akeys]
    rw [ih (acc ++ [(recName r, r)]) (by rw [hassoc]; exact hnd')]
    simp

theorem alookup_map_pair (nd : List (List (String × String)))
    (hnd : (nd.map recName).Nodup) (r : List (String × String)) (hr : r ∈ nd) :
    alookup (nd.map (fun x => (recName x, x))) (recName r) = some r := by
  induction nd with
  | nil => simp at hr
  | cons r0 t ih =>
    simp only [List.map_cons, List.nodup_cons] at hnd
    rcases List.mem_cons.mp hr with h | h
    · subst h
      simp [alookup]
    · have hmem : recName r ∈ t.map recName := List.mem_map_of_mem recName h
      have hne : ¬ recName r0 = recName r := fun he => hnd.1 (he ▸ hmem)
      simp only [List.map_cons, alookup, if_neg hne]
      exact ih hnd.2 h

theorem cacheHit_refresh (nd1 nd2 : List (List (String × String)))
    (hnames : (nd1.map recName).Nodup)
    (hkeys : ∀ r ∈ nd1, (akeys r).Nodup)
    (hperm : nd2.Perm nd1) :
    cacheHit (cacheRefresh nd1) nd2 = true := by
  unfold cacheHit
  rw [Bool.and_eq_true]
  constructor
  · rw [cacheRefresh_eq_map nd1 hnames]
    simp [hperm.length_eq]
  · rw [List.all_eq_true]
    intro r hr
    have hr1 : r ∈ nd1 := hperm.mem_iff.mp hr
    rw [cacheRefresh_eq_map nd1 hnames, alookup_map_pair nd1 hnames r hr1]
    exact mapEqualMap_refl r (hkeys r hr1)

theorem updateNodeConfigMap_hit (env : CMEnv)
    (cache : List (String × List (String × String)))
    (hl : env.listOk = true) (h : cacheHit cache (nodeDevice env.nodes) = true) :
    updateNodeConfigMap env cache = ⟨cache, [], false⟩ := by
  simp [updateNodeConfigMap, hl, h]

theorem updateNodeConfigMap_update (env : CMEnv)
    (cache : List (String × List (String × String)))
    (hl : env.listOk = true) (hmiss : cacheHit cache (nodeDevice env.nodes) = false)
    (hg : env.cmGet = CMGetRes.found) (hu : env.updateOk = true) :
    updateNodeConfigMap env cache =
      ⟨cacheRefresh (nodeDevice env.nodes),
        [CMWrite.update (nodeDevice env.nodes)], false⟩ := by
  simp [updateNodeConfigMap, hl, hmiss, hg, hu]

/-- **C8** counterexample. When the artifact does not exist yet, two
consecutive successful passes over the SAME node list produce TWO writes:
the first pass creates the artifact but — unlike the update branch — does
NOT refresh the cache (`persistentvolume_controller.go` lines 177–182), so
the second pass misses the cache and writes again. -/
theorem capacity_double_write_on_create : ¬ claimC8Stmt [nodeC8] [nodeC8] [] false := by
  unfold claimC8Stmt
  intro h
  exact absurd (h (List.Perm.refl _) (by decide)) (by decide)

/-- **C8** (amended). When the artifact already exists before the first
pass (so the first write is an Update), two consecutive successful passes
whose node lists are permutations of each other — hence compute identical
per-node record sets — issue exactly one artifact write: the first pass
updates and refreshes the cache to the new snapshot, and the second pass
hits the cache and writes nothing. (On the Create path the cache is not
refreshed and a second write follows, per the counterexample.) -/
theorem capacity_two_passes_single_write (nodes1 nodes2 : List NodeCap)
    (cache₀ : List (String × List (String × String)))
    (hperm : nodes2.Perm nodes1)
    (hnames : ((nodeDevice nodes1).map recName).Nodup)
    (hmiss : cacheHit cache₀ (nodeDevice nodes1) = false) :
    (twoPasses nodes1 nodes2 cache₀ true).1.writes =
      [CMWrite.update (nodeDevice nodes1)] ∧
    (twoPasses nodes1 nodes2 cache₀ true).2.writes = [] := by
  have h1 : updateNodeConfigMap
      ⟨true, nodes1, CMGetRes.found, true, true⟩ cache₀ =
      ⟨cacheRefresh (nodeDevice nodes1), [CMWrite.update (nodeDevice nodes1)], false⟩ :=
    updateNodeConfigMap_update _ _ rfl hmiss rfl rfl
  have hhit : cacheHit (cacheRefresh (nodeDevice nodes1)) (nodeDevice nodes2) = true :=
    cacheHit_refresh (nodeDevice nodes1) (nodeDevice nodes2) hnames
      (mem_nodeDevice_nodup_keys nodes1) (nodeDevice_perm nodes1 nodes2 hperm)
  have h2 : updateNodeConfigMap
      ⟨true, nodes2, CMGetRes.found, true, true⟩ (cacheRefresh (nodeDevice nodes1)) =
      ⟨cacheRefresh (nodeDevice nodes1), [], false⟩ :=
    updateNodeConfigMap_hit _ _ rfl hhit
  have hpair : twoPasses nodes1 nodes2 cache₀ true =
      (updateNodeConfigMap ⟨true, nodes1, CMGetRes.found, true, true⟩ cache₀,
        updateNodeConfigMap ⟨true, nodes2, CMGetRes.found, true, true⟩
          (updateNodeConfigMap ⟨true, nodes1, CMGetRes.found, true, true⟩ cache₀).cache) :=
    rfl
  rw [hpair]
  constructor
  · rw [h1]
  · rw [h1]
    show (updateNodeConfigMap _ (cacheRefresh (nodeDevice nodes1))).writes = []
    rw [h2]

/-- Witness for the amended C8: one node listed in the same order twice,
artifact existing — one update write then a cache hit. -/
theorem capacity_two_passes_single_write_witness :
    (twoPasses [nodeC8] [nodeC8] [] true).1.writes =
      [CMWrite.update (nodeDevice [nodeC8])] ∧
    (twoPasses [nodeC8] [nodeC8] [] true).2.writes = [] :=
  capacity_two_passes_single_write [nodeC8] [nodeC8] [] (List.Perm.refl _)
    (by decide) (by decide)

theorem updateKindResync_name (p : KPod) (k : String) (c : Cgroupblkio) :
    (updateKindResync p k c).name = c.name := by
  cases h : annotValue p c.name with
  | none =>
    simp only [updateKindResync, h]
    split <;> rfl
  | some v => simp only [updateKindResync, h]

theorem updateKindResync_old (p : KPod) (k : String) (c : Cgroupblkio) :
    (updateKindResync p k c).oldBlkio = c.oldBlkio := by
  cases h : annotValue p c.name with
  | none =>
    simp only [updateKindResync, h]
    split <;> rfl
  | some v => simp only [updateKindResync, h]

theorem evolveTouches_name (ts : List (KPod × String)) (c : Cgroupblkio) :
    (evolveTouches ts c).name = c.name := by
  induction ts generalizing c with
  | nil => rfl
  | cons t ts ih =>
    show (evolveTouches ts (updateKindResync t.1 t.2 c)).name = c.name
    rw [ih, updateKindResync_name]

theorem evolveTouches_old (ts : List (KPod × String)) (c : Cgroupblkio) :
    (evolveTouches ts c).oldBlkio = c.oldBlkio := by
  induction ts generalizing c with
  | nil => rfl
  | cons t ts ih =>
    show (evolveTouches ts (updateKindResync t.1 t.2 c)).oldBlkio = c.oldBlkio
    rw [ih, updateKindResync_old]

theorem updateKindResync_new_cases (p : KPod) (k : String) (c : Cgroupblkio) :
    (updateKindResync p k c).newBlkio = c.newBlkio ∨
    ∃ v, (updateKindResync p k c).newBlkio = ainsert c.newBlkio k v := by
  cases h : annotValue p c.name with
  | none =>
    simp only [updateKindResync, h]
    split
    · exact Or.inr ⟨"0", rfl⟩
    · exact Or.inl rfl
  | some v =>
    simp only [updateKindResync, h]
    exact Or.inr ⟨v, rfl⟩

theorem evolve_keys (ts : List (KPod × String)) (c : Cgroupblkio) (k : String)
    (hk : k ∈ akeys (evolveTouches ts c).newBlkio) :
    k ∈ akeys c.newBlkio ∨ ∃ t ∈ ts, t.2 = k := by
  induction ts generalizing c with
  | nil => exact Or.inl hk
  | cons t ts ih =>
    have hk' : k ∈ akeys (evolveTouches ts (updateKindResync t.1 t.2 c)).newBlkio := hk
    rcases ih _ hk' with h | h
    · rcases updateKindResync_new_cases t.1 t.2 c with heq | ⟨v, heq⟩
      · rw [heq] at h
        exact Or.inl h
      · rw [heq] at h
        rcases (mem_akeys_ainsert _ _ _ _).mp h with h' | h'
        · exact Or.inr ⟨t, List.mem_cons_self t ts, h'.symm⟩
        · exact Or.inl h'
    · rcases h with ⟨t', ht', he⟩
      exact Or.inr ⟨t', List.mem_cons_of_mem t ht', he⟩

theorem updateKindResync_lookup_ne (p : KPod) (kt k : String) (c : Cgroupblkio)
    (hne : kt ≠ k) :
    alookup (updateKindResync p kt c).newBlkio k = alookup c.newBlkio k := by
  rcases updateKindResync_new_cases p kt c with heq | ⟨v, heq⟩
  · rw [heq]
  · rw [heq]
    exact alookup_ainsert_ne _ _ _ _ (fun he => hne he.symm)

theorem updateKindResync_lookup_touch (p : KPod) (k : String) (c : Cgroupblkio)
    (hann : annotValue p c.name = none)
    (hold : (alookup c.oldBlkio k).isSome = true) :
    alookup (updateKindResync p k c).newBlkio k = some "0" := by
  simp only [updateKindResync, hann, hold, if_pos]
  exact alookup_ainsert_self _ _ _

theorem evolve_value_zero (ts : List (KPod × String)) (c : Cgroupblkio) (k : String)
    (hold : (alookup c.oldBlkio k).isSome = true)
    (hann : ∀ t ∈ ts, t.2 = k → annotValue t.1 c.name = none)
    (hcur : alookup c.newBlkio k = some "0") :
    alookup (evolveTouches ts c).newBlkio k = some "0" := by
  induction ts generalizing c with
  | nil => exact hcur
  | cons t ts ih =>
    show alookup (evolveTouches ts (updateKindResync t.1 t.2 c)).newBlkio k = some "0"
    have hold' : (alookup (updateKindResync t.1 t.2 c).oldBlkio k).isSome = true := by
      rw [updateKindResync_old]; exact hold
    have hann' : ∀ t' ∈ ts, t'.2 = k →
        annotValue t'.1 (updateKindResync t.1 t.2 c).name = none := by
      intro t' ht' he
      rw [updateKindResync_name]
      exact hann t' (List.mem_cons_of_mem t ht') he
    apply ih _ hold' hann'
    by_cases he : t.2 = k
    · subst he
      exact updateKindResync_lookup_touch t.1 t.2 c
        (hann t (List.mem_cons_self t ts) rfl) hold
    · rw [updateKindResync_lookup_ne t.1 t.2 k c he]
      exact hcur

theorem evolve_value_touched (ts : List (KPod × String)) (c : Cgroupblkio) (k : String)
    (hold : (alookup c.oldBlkio k).isSome = true)
    (hann : ∀ t ∈ ts, t.2 = k → annotValue t.1 c.name = none)
    (hcur : alookup c.newBlkio k = none ∨ alookup c.newBlkio k = some "0")
    (htouch : ∃ t ∈ ts, t.2 = k) :
    alookup (evolveTouches ts c).newBlkio k = some "0" := by
  induction ts generalizing c with
  | nil => rcases htouch with ⟨t, ht, -⟩; simp at ht
  | cons t ts ih =>
    show alookup (evolveTouches ts (updateKindResync t.1 t.2 c)).newBlkio k = some "0"
    have hold' : (alookup (updateKindResync t.1 t.2 c).oldBlkio k).isSome = true := by
      rw [updateKindResync_old]; exact hold
    have hann' : ∀ t' ∈ ts, t'.2 = k →
        annotValue t'.1 (updateKindResync t.1 t.2 c).name = none := by
      intro t' ht' he
      rw [updateKindResync_name]
      exact hann t' (List.mem_cons_of_mem t ht') he
    by_cases he : t.2 = k
    · subst he
      have hz : alookup (updateKindResync t.1 t.2 c).newBlkio t.2 = some "0" :=
        updateKindResync_lookup_touch t.1 t.2 c (hann t (List.mem_cons_self t ts) rfl) hold
      exact evolve_value_zero ts _ t.2 hold' hann' hz
    · rcases htouch with ⟨t', ht', he'⟩
      rcases List.mem_cons.mp ht' with h | h
      · subst h; exact absurd he' he
      · apply ih _ hold' hann'
        · rw [updateKindResync_lookup_ne t.1 t.2 k c he]
          exact hcur
        · exact ⟨t', h, he'⟩

theorem evolve_nodup_keys (ts : List (KPod × String)) (c : Cgroupblkio)
    (hnd : (akeys c.newBlkio).Nodup) :
    (akeys (evolveTouches ts c).newBlkio).Nodup := by
  induction ts generalizing c with
  | nil => exact hnd
  | cons t ts ih =>
    show (akeys (evolveTouches ts (updateKindResync t.1 t.2 c)).newBlkio).Nodup
    apply ih
    rcases updateKindResync_new_cases t.1 t.2 c with heq | ⟨v, heq⟩
    · rw [heq]; exact hnd
    · rw [heq]; exact nodup_akeys_ainsert _ _ _ hnd

theorem podVolumesPass_eq_touches (upd : KPod → String → Cgroupblkio → Cgroupblkio)
    (pvs : List KPV) (p : KPod) (cb : List Cgroupblkio) :
    podVolumesPass upd pvs p cb =
      (podTouches pvs p).foldl (fun cb k => cb.map (upd p k)) cb := by
  unfold podVolumesPass podTouches
  generalize p.volumes = vols
  induction vols generalizing cb with
  | nil => rfl
  | cons vol t ih =>
    rw [List.foldl_cons, List.filterMap_cons]
    cases vol with
    | none => exact ih cb
    | some cn =>
      cases hres : resolveDeviceKey pvs p.ns cn with
      | none =>
        simp only [hres]
        exact ih cb
      | some key =>
        simp only [hres, List.foldl_cons]
        exact ih _

theorem foldl_map_comm {α : Type} (ts : List α)
    (f : α → Cgroupblkio → Cgroupblkio) (cb : List Cgroupblkio) :
    ts.foldl (fun cb t => cb.map (f t)) cb = cb.map (fun c => ts.foldl (fun c t => f t c) c) := by
  induction ts generalizing cb with
  | nil => simp
  | cons t ts ih =>
    rw [List.foldl_cons, ih (cb.map (f t)), List.map_map]
    congr 1

theorem evolveTouches_append (ts1 ts2 : List (KPod × String)) (c : Cgroupblkio) :
    evolveTouches (ts1 ++ ts2) c = evolveTouches ts2 (evolveTouches ts1 c) := by
  unfold evolveTouches
  exact List.foldl_append _ _ ts1 ts2

theorem resyncFold_eq_evolve (pvs : List KPV) (ps : List KPod) (cb : List Cgroupblkio) :
    ps.foldl (fun cb p => podVolumesPass updateKindResync pvs p cb) cb =
      cb.map (evolveTouches
        (ps.flatMap (fun p => (podTouches pvs p).map (fun k => (p, k))))) := by
  induction ps generalizing cb with
  | nil =>
    show cb = cb.map (evolveTouches [])
    have h : evolveTouches ([] : List (KPod × String)) = fun c => c := rfl
    rw [h, List.map_id']
  | cons p t ih =>
    rw [List.foldl_cons, List.flatMap_cons, podVolumesPass_eq_touches]
    have hstep : (podTouches pvs p).foldl (fun cb k => cb.map (updateKindResync p k)) cb =
        cb.map (evolveTouches ((podTouches pvs p).map (fun k => (p, k)))) := by
      rw [foldl_map_comm]
      congr 1
      funext c
      unfold evolveTouches
      rw [List.foldl_map]
    rw [hstep, ih, List.map_map]
    congr 1
    funext c
    exact (evolveTouches_append _ _ c).symm

theorem allPodCGroupConfig_eq (nodeName : String) (pods : List KPod) (pvs : List KPV)
    (files : String → Option (List String)) (cb : List Cgroupblkio)
    (hread : readCGroupBlkioFile files = some cb) :
    allPodCGroupConfig nodeName pods pvs files =
      some (writeCgroupBlkioFile
        (cb.map (evolveTouches (allTouches nodeName pods pvs)))) := by
  unfold allPodCGroupConfig
  rw [hread]
  dsimp only
  rw [resyncFold_eq_evolve]
  rfl

theorem readFold_none (ks : List String)
    (files : String → Option (List String)) :
    ks.foldl (readKindStep files) none = none := by
  induction ks with
  | nil => rfl
  | cons v t ih => exact ih

theorem readFold_structure (files : String → Option (List String)) :
    ∀ (ks : List String) (acc cb : List Cgroupblkio),
      ks.foldl (readKindStep files) (some acc) = some cb →
      ∃ extra, cb = acc ++ extra ∧
        (extra.map Cgroupblkio.name).Sublist ks ∧ ∀ c ∈ extra, c.newBlkio = [] := by
  intro ks
  induction ks with
  | nil =>
    intro acc cb h
    refine ⟨[], ?_, List.nil_sublist _, by intro c hc; simp at hc⟩
    simpa using (Option.some_injective _ h).symm
  | cons v t ih =>
    intro acc cb h
    rw [List.foldl_cons] at h
    cases hf : files v with
    | none =>
      simp only [readKindStep, hf] at h
      rcases ih acc cb h with ⟨extra, h1, h2, h3⟩
      exact ⟨extra, h1, h2.cons v, h3⟩
    | some lines =>
      cases hp : parseBlkioLines [] lines with
      | none =>
        simp only [readKindStep, hf, hp] at h
        rw [readFold_none t files] at h
        cases h
      | some old =>
        simp only [readKindStep, hf, hp] at h
        rcases ih (acc ++ [⟨v, BlkIOCGroupPath ++ v, old, []⟩]) cb h with ⟨extra, h1, h2, h3⟩
        refine ⟨⟨v, BlkIOCGroupPath ++ v, old, []⟩ :: extra, by simpa using h1, ?_, ?_⟩
        · exact h2.cons₂ v
        · intro c hc
          rcases List.mem_cons.mp hc with h' | h'
          · subst h'; rfl
          · exact h3 c h'

theorem readCGroupBlkioFile_structure (files : String → Option (List String))
    (cb : List Cgroupblkio) (hread : readCGroupBlkioFile files = some cb) :
    (cb.map Cgroupblkio.name).Sublist cgroupKinds ∧ ∀ c ∈ cb, c.newBlkio = [] := by
  rcases readFold_structure files cgroupKinds [] cb hread with ⟨extra, h1, h2, h3⟩
  rw [h1]
  simpa using ⟨h2, h3⟩

theorem readCGroupBlkioFile_names_nodup (files : String → Option (List String))
    (cb : List Cgroupblkio) (hread : readCGroupBlkioFile files = some cb) :
    (cb.map Cgroupblkio.name).Nodup :=
  ((readCGroupBlkioFile_structure files cb hread).1).nodup (by decide)

theorem mem_podTouches (pvs : List KPV) (p : KPod) (k : String) :
    k ∈ podTouches pvs p ↔ refsKey pvs p k = true := by
  unfold podTouches refsKey
  rw [List.mem_filterMap, List.any_eq_true]
  constructor
  · rintro ⟨vol, hv, he⟩
    refine ⟨vol, hv, ?_⟩
    cases vol with
    | none => cases he
    | some cn => simpa using he
  · rintro ⟨vol, hv, he⟩
    refine ⟨vol, hv, ?_⟩
    cases vol with
    | none => simp at he
    | some cn => simpa using he

theorem mem_allTouches (nodeName : String) (pods : List KPod) (pvs : List KPV)
    (t : KPod × String) :
    t ∈ allTouches nodeName pods pvs ↔
      t.1 ∈ matchingPods nodeName pods ∧ t.2 ∈ podTouches pvs t.1 := by
  obtain ⟨p, k⟩ := t
  unfold allTouches
  rw [List.mem_flatMap]
  constructor
  · rintro ⟨q, hq, ht⟩
    rcases List.mem_map.mp ht with ⟨k', hk', he⟩
    cases he
    exact ⟨hq, hk'⟩
  · rintro ⟨h1, h2⟩
    exact ⟨p, h1, List.mem_map.mpr ⟨k, h2, rfl⟩⟩

theorem writesFor_append (ws1 ws2 : List BlkioWrite) (kind k : String) :
    writesFor (ws1 ++ ws2) kind k = writesFor ws1 kind k ++ writesFor ws2 kind k := by
  unfold writesFor
  exact List.filter_append _ _

theorem writesFor_pruneAndEmit_other (c : Cgroupblkio) (kind k : String)
    (hne : c.name ≠ kind) : writesFor (pruneAndEmit c) kind k = [] := by
  unfold writesFor pruneAndEmit
  rw [List.filter_eq_nil_iff]
  intro w hw
  rcases List.mem_map.mp hw with ⟨e, -, hw'⟩
  subst hw'
  simp [hne]

theorem filter_key_unique (m : List (String × String)) (k v : String)
    (p : String × String → Bool)
    (hnd : (akeys m).Nodup) (hl : alookup m k = some v) (hp : p (k, v) = true) :
    m.filter (fun e => p e && e.1 == k) = [(k, v)] := by
  induction m with
  | nil => simp [alookup] at hl
  | cons e0 t ih =>
    obtain ⟨k0, v0⟩ := e0
    simp only [akeys_cons, List.nodup_cons] at hnd
    by_cases hk : k0 = k
    · subst hk
      have hv : v0 = v := by simpa [alookup] using hl
      subst hv
      rw [List.filter_cons]
      have hcond : (p (k0, v0) && (k0 == k0)) = true := by simp [hp]
      rw [if_pos hcond]
      have hnil : t.filter (fun e => p e && e.1 == k0) = [] := by
        rw [List.filter_eq_nil_iff]
        intro e he
        have hek : e.1 ≠ k0 := by
          intro heq
          exact hnd.1 (heq ▸ List.mem_map_of_mem Prod.fst he)
        simp [hek]
      rw [hnil]
    · have hl' : alookup t k = some v := by
        simpa [alookup, hk] using hl
      rw [List.filter_cons]
      have hcond : (p (k0, v0) && (k0 == k)) = false := by simp [hk]
      rw [if_neg (by simp [hcond])]
      exact ih hnd.2 hl'

theorem writesFor_pruneAndEmit_self (c : Cgroupblkio) (k : String)
    (hnd : (akeys c.newBlkio).Nodup)
    (hlook : alookup c.newBlkio k = some "0")
    (hold : alookup c.oldBlkio k ≠ some "0") :
    writesFor (pruneAndEmit c) c.name k = [⟨c.name, k, "0"⟩] := by
  unfold writesFor pruneAndEmit
  rw [List.filter_map]
  have h1 : ((fun w : BlkioWrite => w.kind == c.name && w.deviceKey == k) ∘
      (fun e : String × String => (⟨c.name, e.1, e.2⟩ : BlkioWrite)))
      = fun e : String × String => e.1 == k := by
    funext e
    simp
  rw [h1, List.filter_filter]
  have hcomm : (fun a : String × String => (a.1 == k) && !(alookup c.oldBlkio a.1 == some a.2))
      = fun a : String × String => (!(alookup c.oldBlkio a.1 == some a.2)) && (a.1 == k) := by
    funext a
    rw [Bool.and_comm]
  rw [hcomm]
  rw [filter_key_unique c.newBlkio k "0"
      (fun e => !(alookup c.oldBlkio e.1 == some e.2)) hnd hlook (by simp [hold])]
  rfl

theorem writesFor_flatMap_nil (φ : Cgroupblkio → Cgroupblkio) (l : List Cgroupblkio)
    (kind k : String) (h : ∀ x ∈ l, (φ x).name ≠ kind) :
    writesFor (l.flatMap (fun x => pruneAndEmit (φ x))) kind k = [] := by
  induction l with
  | nil => rfl
  | cons x t ih =>
    rw [List.flatMap_cons, writesFor_append,
      writesFor_pruneAndEmit_other _ _ _ (h x (List.mem_cons_self x t)),
      List.nil_append]
    exact ih (fun y hy => h y (List.mem_cons_of_mem x hy))

theorem writesFor_flatMap_unique (φ : Cgroupblkio → Cgroupblkio)
    (cbl : List Cgroupblkio) (hnd : (cbl.map Cgroupblkio.name).Nodup)
    (hφ : ∀ x, (φ x).name = x.name) (c : Cgroupblkio) (hc : c ∈ cbl) (k : String) :
    writesFor (cbl.flatMap (fun x => pruneAndEmit (φ x))) c.name k =
      writesFor (pruneAndEmit (φ c)) c.name k := by
  induction cbl with
  | nil => simp at hc
  | cons x t ih =>
    simp only [List.map_cons, List.nodup_cons] at hnd
    rw [List.flatMap_cons, writesFor_append]
    rcases List.mem_cons.mp hc with h | h
    · subst h
      have hnil : writesFor (t.flatMap fun x => pruneAndEmit (φ x)) c.name k = [] := by
        apply writesFor_flatMap_nil
        intro y hy
        rw [hφ y]
        intro he
        exact hnd.1 (he ▸ List.mem_map_of_mem Cgroupblkio.name hy)
      rw [hnil, List.append_nil]
    · have hxname : (φ x).name ≠ c.name := by
        rw [hφ x]
        intro he
        exact hnd.1 (he ▸ List.mem_map_of_mem Cgroupblkio.name h)
      rw [writesFor_pruneAndEmit_other _ _ _ hxname, List.nil_append]
      exact ih hnd.2 h

/-- **C3** counterexample. With the previous host state reading `8:16 100`
for every limit kind and NO matching pod at all (so in particular no
matching pod override for device `8:16`), the full-resync pass issues no
write whatsoever: the loop only ever touches devices resolved from some
matching pod's volumes, so a previously-limited device that no pod
references is silently left at its stale limit instead of being written
`0` once. -/
theorem stale_unreferenced_device_never_written :
    ¬ claimC3Stmt "node1" [] [] filesC3 := by
  unfold claimC3Stmt
  decide

/-- **C3** (amended). In a full-resync pass, for each limit kind: a device
key present in the host-read previous state with a previous value other
than `"0"`, referenced by at least one matching pod, where every matching
pod referencing it lacks the override annotation for that kind, is written
as `0` exactly once; and every write of the pass concerns a device key
referenced by some matching pod — so a device key never present in the
previous state and never referenced by a matching pod is never written. -/
theorem resync_clears_stale_referenced_devices (nodeName : String)
    (pods : List KPod) (pvs : List KPV) (files : String → Option (List String))
    (cb : List Cgroupblkio) (ws : List BlkioWrite)
    (hread : readCGroupBlkioFile files = some cb)
    (hall : allPodCGroupConfig nodeName pods pvs files = some ws)
    (c : Cgroupblkio) (hc : c ∈ cb) :
    (∀ k ∈ akeys c.oldBlkio,
      alookup c.oldBlkio k ≠ some "0" →
      (∃ p ∈ matchingPods nodeName pods, refsKey pvs p k = true) →
      (∀ p ∈ matchingPods nodeName pods, refsKey pvs p k = true →
        annotValue p c.name = none) →
      writesFor ws c.name k = [⟨c.name, k, "0"⟩]) ∧
    (∀ w ∈ ws, ∃ p ∈ matchingPods nodeName pods, refsKey pvs p w.deviceKey = true) := by
  have hws : ws = writeCgroupBlkioFile
      (cb.map (evolveTouches (allTouches nodeName pods pvs))) := by
    have h := allPodCGroupConfig_eq nodeName pods pvs files cb hread
    rw [hall] at h
    exact Option.some_injective _ h
  have hstruct := readCGroupBlkioFile_structure files cb hread
  have hnames := readCGroupBlkioFile_names_nodup files cb hread
  have hcnew : c.newBlkio = [] := hstruct.2 c hc
  constructor
  · intro k hk hnz href hnoann
    have hold : (alookup c.oldBlkio k).isSome = true :=
      (alookup_isSome_iff_mem_akeys _ _).mpr hk
    have hann : ∀ t ∈ allTouches nodeName pods pvs, t.2 = k →
        annotValue t.1 c.name = none := by
      intro t ht he
      have hmt := (mem_allTouches nodeName pods pvs t).mp ht
      apply hnoann t.1 hmt.1
      rw [← mem_podTouches]
      rw [← he]
      exact hmt.2
    have htouch : ∃ t ∈ allTouches nodeName pods pvs, t.2 = k := by
      rcases href with ⟨p, hp, hr⟩
      refine ⟨(p, k), ?_, rfl⟩
      rw [mem_allTouches]
      exact ⟨hp, (mem_podTouches pvs p k).mpr hr⟩
    have hval : alookup (evolveTouches (allTouches nodeName pods pvs) c).newBlkio k
        = some "0" :=
      evolve_value_touched _ c k hold hann (Or.inl (by rw [hcnew]; rfl)) htouch
    have hndk : (akeys (evolveTouches (allTouches nodeName pods pvs) c).newBlkio).Nodup :=
      evolve_nodup_keys _ c (by rw [hcnew]; exact List.nodup_nil)
    rw [hws, writeCgroupBlkioFile_eq, List.flatMap_map,
      writesFor_flatMap_unique (evolveTouches (allTouches nodeName pods pvs)) cb hnames
        (evolveTouches_name _) c hc k]
    have hself := writesFor_pruneAndEmit_self
      (evolveTouches (allTouches nodeName pods pvs) c) k hndk hval
      (by rw [evolveTouches_old]; exact hnz)
    rw [evolveTouches_name] at hself
    exact hself
  · intro w hw
    rw [hws, writeCgroupBlkioFile_eq, List.flatMap_map] at hw
    rcases List.mem_flatMap.mp hw with ⟨x, hx, hwx⟩
    unfold pruneAndEmit at hwx
    rcases List.mem_map.mp hwx with ⟨e, he, hwe⟩
    have hkey : w.deviceKey = e.1 := by rw [← hwe]
    have hmem : e.1 ∈ akeys (evolveTouches (allTouches nodeName pods pvs) x).newBlkio :=
      List.mem_map_of_mem Prod.fst (List.mem_filter.mp he).1
    rcases evolve_keys _ x e.1 hmem with h | ⟨t, ht, hte⟩
    · rw [hstruct.2 x hx] at h
      simp at h
    · have hmt := (mem_allTouches nodeName pods pvs t).mp ht
      refine ⟨t.1, hmt.1, ?_⟩
      rw [hkey, ← hte, ← mem_podTouches]
      exact hmt.2

/-- Witness for the amended C3: previous state `8:16 100`, one matching pod
referencing device `8:16` with no annotations — the read-bytes kind writes
`8:16 0` exactly once. -/
theorem resync_clears_stale_referenced_devices_witness :
    writesFor (cgroupKinds.map (fun v => (⟨v, "8:16", "0"⟩ : BlkioWrite)))
        BlkIOThrottleReadBPS "8:16" =
      [⟨BlkIOThrottleReadBPS, "8:16", "0"⟩] :=
  ((resync_clears_stale_referenced_devices "node1" [podPlain] [pvDev816] filesC3
      (cgroupKinds.map (fun v => ⟨v, BlkIOCGroupPath ++ v, [("8:16", "100")], []⟩))
      (cgroupKinds.map (fun v => ⟨v, "8:16", "0"⟩))
      (by decide) (by decide)
      ⟨BlkIOThrottleReadBPS, BlkIOCGroupPath ++ BlkIOThrottleReadBPS, [("8:16", "100")], []⟩
      (by decide)).1
    "8:16" (by decide) (by decide) (by decide) (by decide))
